import Mathlib

/-!
Shallow embedding of the smart-mcp gateway core (MetaMCP), verified against its
natural-language specification.  The embedding covers:

* the Live Session Registry (`LiveConnectionsTracker`),
* the Discovery Index (`DiscoveryService.search`),
* the Smart-Discovery middleware (session manager, `metamcp__find` handler,
  list-tools assembly),
* the Ask-Agent orchestrator (`AskAgent.run`),
* the control-plane implementations `uploadAgentDocument` and `refreshTools`.

JavaScript runtime structures are modelled explicitly: a `Map` is an
insertion-ordered association list, a `Set` is an insertion-ordered duplicate-free
list, `Array.prototype.sort` is a comparison sort (modelled by a stable insertion
sort), and JS numbers appearing as counters/limits are `Int` (scores are `ℚ`).
External ports (tokenizer, embedding provider, chat-completions adapter, upstream
executor, database rows) are parameters of the functions that consume them.
-/

set_option maxHeartbeats 1000000

/-- JS `Map.get`, on an insertion-ordered association list. -/
def alookup {β : Type} (k : String) : List (String × β) → Option β
  | [] => none
  | (k', v) :: rest => if k' = k then some v else alookup k rest

/-- JS `Map.set`: replace the value in place when the key is present, else append. -/
def aset {β : Type} (k : String) (v : β) : List (String × β) → List (String × β)
  | [] => [(k, v)]
  | (k', v') :: rest => if k' = k then (k, v) :: rest else (k', v') :: aset k v rest

/-- JS `Map.delete`: drop the entry for the key (the first one; a real `Map` has
unique keys, which the developments below maintain as an invariant). -/
def aerase {β : Type} (k : String) : List (String × β) → List (String × β)
  | [] => []
  | (k', v') :: rest => if k' = k then rest else (k', v') :: aerase k rest

/-- JS `Set.add`: append when absent. -/
def jsSetAdd (s : List String) (x : String) : List String :=
  if x ∈ s then s else s ++ [x]

/-- `new Set(xs)` / iterated `Set.add`: insertion-ordered de-duplication. -/
def jsSetOf (xs : List String) : List String := xs.foldl jsSetAdd []

/-- One step of a stable insertion sort; `le` is the boolean comparison the JS
comparator induces. -/
def insertSorted {α : Type} (le : α → α → Bool) (x : α) : List α → List α
  | [] => [x]
  | y :: ys => if le x y then x :: y :: ys else y :: insertSorted le x ys

/-- `Array.prototype.sort(cmp)`: a stable comparison sort (the ECMAScript spec
leaves the algorithm open; only the ordering of the output is relied upon). -/
def sortBy {α : Type} (le : α → α → Bool) (l : List α) : List α :=
  l.foldr (insertSorted le) []

/-- `arr.slice(0, endIdx)` on a JS array: a non-negative `endIdx` keeps the first
`endIdx` elements; a negative one counts from the end. -/
def jsSliceTo {α : Type} (endIdx : Int) (l : List α) : List α :=
  if endIdx < 0 then l.take ((l.length : Int) + endIdx).toNat else l.take endIdx.toNat

/-- JS `String.prototype.trim` (modelled at the character level). -/
def jsTrim (s : String) : String :=
  String.mk (((s.toList.dropWhile Char.isWhitespace).reverse.dropWhile
    Char.isWhitespace).reverse)

/-- JS `str.slice(0, n)` (modelled at the character level). -/
def jsStringTake (n : Nat) (s : String) : String := String.mk (s.toList.take n)

/-- Split a character list at the first occurrence of `__`. -/
def splitFirstSepAux : List Char → Option (List Char × List Char)
  | [] => none
  | c :: rest =>
    match rest with
    | [] => none
    | c2 :: rest2 =>
      if c = '_' ∧ c2 = '_' then some ([], rest2)
      else (splitFirstSepAux rest).map (fun p => (c :: p.1, p.2))

/-- `parseToolName`: split a full tool name on the FIRST `__` into
`(serverName, toolName)`; `none` when the separator is absent.  Mirrors
`DiscoveryService.parseToolName` (discovery-service.ts) and the shared
`tool-name-parser` module used by `refreshTools` (spec §4.9: "split on the first
`__`"). -/
def parseToolName (fullName : String) : Option (String × String) :=
  (splitFirstSepAux fullName.toList).map (fun p => (String.mk p.1, String.mk p.2))

/-- `Math.round(q * 100) / 100`: the 2-decimal rounding applied to relevance
scores. -/
def roundScore (q : ℚ) : ℚ := ((round (q * 100) : ℤ) : ℚ) / 100

/-! ### Discovery Index (`discovery-service.ts`) -/

/-- A cached `ToolIndexEntry`.  The embedding vector is produced by the external
embedding-provider port; its float components are modelled as `ℚ`.  The
`inputSchema` JSON value is kept opaque (as a string), per spec §9. -/
structure ToolIndexEntry where
  toolName : String
  fullToolName : String
  serverName : String
  description : String
  inputSchema : String
  embedding : List ℚ
  hash : String
deriving Repr, DecidableEq

/-- An MCP `Tool` as it appears in a search result (name, description, input
schema). -/
structure SdTool where
  name : String
  description : String
  inputSchema : String
deriving Repr, DecidableEq

/-- A `SearchResult` of the Discovery service. -/
structure SearchResult where
  tool : SdTool
  serverName : String
  score : ℚ
deriving Repr, DecidableEq

/-- The filter-and-score pass of `DiscoveryService.search`: for every cached
entry compute its similarity and keep it when the score reaches the threshold.
`sim e.embedding` abstracts `cosineSimilarity(queryEmbedding, e.embedding)`,
where `queryEmbedding` comes from the external embedding provider and the cosine
is evaluated on floats; only the resulting score enters the control flow. -/
def searchScores (entries : List ToolIndexEntry) (sim : List ℚ → ℚ) (threshold : ℚ) :
    List SearchResult :=
  entries.filterMap (fun e =>
    let score := sim e.embedding
    if threshold ≤ score then
      some { tool := { name := e.fullToolName, description := e.description,
                       inputSchema := e.inputSchema },
             serverName := e.serverName, score := score }
    else none)

/-- `DiscoveryService.search(namespaceUuid, query, limit = 5, threshold = 0.3)`.
The cache is `Map<namespaceUuid, Map<toolKey, ToolIndexEntry>>`; an absent or
empty namespace cache yields `[]`.  Otherwise every cached vector is scored,
scores below the threshold are dropped, the rest are sorted by score descending
(`(a, b) => b.score - a.score`) and the list is cut to `limit` via
`slice(0, limit)`. -/
def DiscoveryService.search (cache : List (String × List (String × ToolIndexEntry)))
    (namespaceUuid : String) (sim : List ℚ → ℚ) (limit : Int) (threshold : ℚ) :
    List SearchResult :=
  match alookup namespaceUuid cache with
  | none => []
  | some namespaceCache =>
    if namespaceCache.length = 0 then []
    else
      let results := searchScores (namespaceCache.map Prod.snd) sim threshold
      jsSliceTo limit (sortBy (fun a b => decide (b.score ≤ a.score)) results)

/-! ### Smart-Discovery middleware (`smart-discovery.functional.ts`) -/

/-- The per-session discovered-tools table:
`Map<sessionId, Map<namespaceUuid, Set<toolName>>>`. -/
abbrev DiscoveredSessions := List (String × List (String × List String))

/-- `DiscoveredToolsSessionManager.setTools`: REPLACE the discovered set for a
`(session, namespace)` pair with `new Set(toolNames)`. -/
def DiscoveredToolsSessionManager.setTools (sessions : DiscoveredSessions)
    (sessionId namespaceUuid : String) (toolNames : List String) : DiscoveredSessions :=
  let sessionNamespaces := (alookup sessionId sessions).getD []
  aset sessionId (aset namespaceUuid (jsSetOf toolNames) sessionNamespaces) sessions

/-- `DiscoveredToolsSessionManager.getDiscoveredToolNames`: the stored set, or
empty when the session or the namespace is unknown. -/
def DiscoveredToolsSessionManager.getDiscoveredToolNames (sessions : DiscoveredSessions)
    (sessionId namespaceUuid : String) : List String :=
  match alookup sessionId sessions with
  | none => []
  | some sessionNamespaces => (alookup namespaceUuid sessionNamespaces).getD []

/-- One formatted tool definition in a `metamcp__find` response. -/
structure ToolDefinition where
  name : String
  description : String
  relevanceScore : ℚ
  arguments : String
deriving Repr, DecidableEq

/-- The observable response of the `metamcp__find` handler.  `missingQuery` is
the `isError:true` validation response; `noToolsFound` is the plain (non-error)
message; `found` carries the formatted tool definitions. -/
inductive FindResult where
  | missingQuery
  | noToolsFound (query : String)
  | found (query : String) (tools : List ToolDefinition)
deriving Repr, DecidableEq

/-- Whether the JSON content block of a `metamcp__find` response carries
`isError: true`. -/
def FindResult.isError : FindResult → Bool
  | .missingQuery => true
  | _ => false

/-- The arguments object of a `metamcp__find` call (both fields optional in the
wire schema). -/
structure FindArgs where
  query : Option String
  limit : Option Int
deriving Repr, DecidableEq

/-- `const limit = Math.min(args?.limit ?? 5, 20)` — the effective search limit
of a `metamcp__find` call. -/
def effectiveFindLimit (argLimit : Option Int) : Int := min (argLimit.getD 5) 20

/-- The `metamcp__find` branch of `createSmartDiscoveryCallToolMiddleware`
(enabled namespace): validate `query` (JS truthiness: absent or empty string is
rejected), run the Discovery search with the capped limit and threshold 0.3,
and on a non-empty result REPLACE the session's discovered set with the returned
names.  Returns the response together with the new session table.  (The
`catch` branch around the search handles embedding-provider exceptions, which
the pure model does not produce.) -/
def handleFind (cache : List (String × List (String × ToolIndexEntry)))
    (sim : List ℚ → ℚ) (sessions : DiscoveredSessions)
    (sessionId namespaceUuid : String) (args : FindArgs) :
    FindResult × DiscoveredSessions :=
  let limit := effectiveFindLimit args.limit
  match args.query with
  | none => (.missingQuery, sessions)
  | some query =>
    if query = "" then (.missingQuery, sessions)
    else
      let results := DiscoveryService.search cache namespaceUuid sim limit (mkRat 3 10)
      if results.length = 0 then (.noToolsFound query, sessions)
      else
        let foundToolNames := results.map (fun r => r.tool.name)
        let sessions' := DiscoveredToolsSessionManager.setTools sessions sessionId
          namespaceUuid foundToolNames
        let toolDefinitions := results.map (fun r =>
          { name := r.tool.name, description := r.tool.description,
            relevanceScore := roundScore r.score,
            arguments := r.tool.inputSchema : ToolDefinition })
        (.found query toolDefinitions, sessions')

/-- The outcome of the Smart-Discovery call-tool middleware. -/
inductive CallToolOutcome where
  | passthrough (name : String)
  | smartDiscoveryDisabled
  | findHandled (r : FindResult)
  | askHandled
deriving Repr, DecidableEq

/-- `createSmartDiscoveryCallToolMiddleware`: non-synthetic names pass through;
synthetic names on a disabled namespace get the `isError:true` block;
`metamcp__find` is handled by `handleFind`; `metamcp__ask` delegates to the
Ask-Agent orchestrator (modelled separately by `AskAgent.run`). -/
def smartDiscoveryCallTool (enabled : Bool)
    (cache : List (String × List (String × ToolIndexEntry))) (sim : List ℚ → ℚ)
    (sessions : DiscoveredSessions) (sessionId namespaceUuid toolName : String)
    (args : FindArgs) : CallToolOutcome × DiscoveredSessions :=
  if toolName ≠ "metamcp__find" ∧ toolName ≠ "metamcp__ask" then
    (.passthrough toolName, sessions)
  else if enabled = false then (.smartDiscoveryDisabled, sessions)
  else if toolName = "metamcp__find" then
    let (r, sessions') := handleFind cache sim sessions sessionId namespaceUuid args
    (.findHandled r, sessions')
  else (.askHandled, sessions)

/-- The NAMES of the tool list produced by
`createSmartDiscoveryListToolsMiddleware` on an enabled namespace: the synthetic
`metamcp__ask` and `metamcp__find` first, then the pinned tools, then the
session's discovered tools (each taken from the true upstream list, preserving
its order), duplicates by name dropped.  Tool bodies (descriptions, schemas) are
carried unchanged from the upstream response and are omitted from the name-level
model. -/
def smartDiscoveryListToolNames (responseToolNames : List String)
    (pinnedToolNames : List String) (sessions : DiscoveredSessions)
    (sessionId namespaceUuid : String) : List String :=
  let discoveredToolNames := DiscoveredToolsSessionManager.getDiscoveredToolNames
    sessions sessionId namespaceUuid
  let pinnedTools := responseToolNames.filter (fun n => n ∈ pinnedToolNames)
  let discoveredTools := responseToolNames.filter (fun n => n ∈ discoveredToolNames)
  jsSetOf (["metamcp__ask", "metamcp__find"] ++ pinnedTools ++ discoveredTools)

/-! ### Ask-Agent Orchestrator (`ask-agent.ts`) -/

/-- `AskAgentToolCandidate` (types.ts): one shortlisted tool as handed to the
LLM. -/
structure AskAgentToolCandidate where
  name : String
  description : String
  inputSchema : String
  server : String
  relevanceScore : ℚ
  allowed : Bool
deriving Repr, DecidableEq

/-- One entry of `plan.toolCalls`.  `arguments` is an opaque JSON object
(absent = `undefined`). -/
structure AskAgentPlanToolCall where
  name : String
  arguments : Option String
  reason : Option String
deriving Repr, DecidableEq

/-- `AskAgentPlan` (types.ts): the JSON object returned by the planning LLM
call. -/
structure AskAgentPlan where
  directAnswer : Option String
  toolCalls : Option (List AskAgentPlanToolCall)
  exposeTools : Option (List String)
  followups : Option (List String)
deriving Repr, DecidableEq

/-- One entry of `report.suggestedTools`. -/
structure AskAgentSuggestedTool where
  name : String
  why : String
  exampleCall : Option String
deriving Repr, DecidableEq

/-- `AskAgentReport` (types.ts): the JSON object returned by the report LLM
call (`answer` may be absent in a malformed response; `run` falls back). -/
structure AskAgentReport where
  answer : Option String
  suggestedTools : Option (List AskAgentSuggestedTool)
  exposeTools : Option (List String)
  followups : Option (List String)
  plan : Option String
deriving Repr, DecidableEq

/-- The five token-count parts of the Ask-Agent budget check. -/
structure AskAgentTokenParts where
  systemPrompt : Nat
  toolCandidates : Nat
  references : Nat
  query : Nat
  planningPayload : Nat
deriving Repr, DecidableEq

/-- `AskAgentTokenUsage` (types.ts). -/
structure AskAgentTokenUsage where
  model : String
  budget : Nat
  total : Nat
  parts : AskAgentTokenParts
deriving Repr, DecidableEq

/-- `AskAgentToolCallExecuted` (types.ts). -/
structure AskAgentToolCallExecuted where
  name : String
  ok : Bool
  reason : Option String
  output : Option String
  error : Option String
deriving Repr, DecidableEq

/-- `AskAgentConfig` (types.ts).  `references` is an opaque JSON value
(`none` = runtime `undefined`/`null`, handled by `?? \x7b\x7d`). -/
structure AskAgentConfig where
  enabled : Bool
  model : String
  systemPrompt : String
  references : Option String
  allowedTools : List String
  deniedTools : List String
  maxToolCalls : Int
  exposeLimit : Int
deriving Repr, DecidableEq

/-- `AskAgentRunOptions` (types.ts): JS numbers, clamped inside `run`. -/
structure AskAgentRunOptions where
  query : String
  maxToolCalls : Int
  exposeLimit : Int
deriving Repr, DecidableEq

/-- `AskAgentContext` (types.ts). -/
structure AskAgentContext where
  namespaceUuid : String
  sessionId : String
  namespaceDescription : Option String
deriving Repr, DecidableEq

/-- The object serialized as the planning user payload (and, with the same
shape, re-serialized for the token pre-check). -/
structure AskPlanningPayload where
  query : String
  namespaceUuid : String
  namespaceDescription : Option String
  maxToolCalls : Int
  exposeLimit : Int
  allowlistProvided : Bool
  tools : List AskAgentToolCandidate
  references : Option String
deriving Repr, DecidableEq

/-- The external collaborators of one `AskAgent.run` invocation, fixed for the
run: the tokenizer (`tokenCounter.count`), the Discovery shortlist returned by
`deps.search.search(namespaceUuid, query, shortlistLimit)`, the JS
`JSON.stringify` serializations, the two `llm.chatJson` responses, and the
upstream executor `deps.exec.callTool` (`.error` models a thrown exception, the
`.ok` payload is the result as the JS `stringify` helper renders it before
truncation). -/
structure AskAgentOracle where
  count : String → String → Nat
  shortlist : List SearchResult
  stringifyCandidates : List AskAgentToolCandidate → String
  stringifyReferences : Option String → String
  stringifyPlanning : AskPlanningPayload → String
  plan : AskAgentPlan
  report : AskAgentReport
  execTool : String → Option String → Except String String

/-- `Math.max(0, Math.min(x, hi))`. -/
def clampNonneg (x hi : Int) : Int := max 0 (min x hi)

/-- `isAllowed`: not denied, and inside the allowlist when one is provided. -/
def askIsAllowed (deniedTools allowedTools : List String) (toolFullName : String) : Bool :=
  if toolFullName ∈ deniedTools then false
  else if allowedTools.length = 0 then true
  else toolFullName ∈ allowedTools

/-- Shortlist → tool candidates (`shortlist.map` in `run`). -/
def askToolCandidates (isAllowed : String → Bool) (shortlist : List SearchResult) :
    List AskAgentToolCandidate :=
  shortlist.map (fun r =>
    { name := r.tool.name, description := r.tool.description,
      inputSchema := r.tool.inputSchema, server := r.serverName,
      relevanceScore := roundScore r.score, allowed := isAllowed r.tool.name })

/-- `cfg.systemPrompt?.trim() || <default>`. -/
def askSystemPrompt (configPrompt : String) : String :=
  let trimmed := jsTrim configPrompt
  if trimmed = "" then
    "You are a specialized assistant for a tool namespace. Be concise, safe, and actionable."
  else trimmed

/-- The token accounting of `run` (its `parts` record): each part is the
tokenizer count of the corresponding serialized string. -/
def askTokenParts (o : AskAgentOracle) (ctx : AskAgentContext) (cfg : AskAgentConfig)
    (opts : AskAgentRunOptions) : AskAgentTokenParts :=
  let maxToolCalls := clampNonneg opts.maxToolCalls 20
  let exposeLimit := clampNonneg opts.exposeLimit 50
  let isAllowed := askIsAllowed cfg.deniedTools cfg.allowedTools
  let toolCandidates := askToolCandidates isAllowed o.shortlist
  let systemPrompt := askSystemPrompt cfg.systemPrompt
  { systemPrompt := o.count cfg.model systemPrompt,
    toolCandidates := o.count cfg.model (o.stringifyCandidates toolCandidates),
    references := o.count cfg.model (o.stringifyReferences cfg.references),
    query := o.count cfg.model opts.query,
    planningPayload := o.count cfg.model (o.stringifyPlanning
      { query := opts.query, namespaceUuid := ctx.namespaceUuid,
        namespaceDescription := ctx.namespaceDescription,
        maxToolCalls := maxToolCalls, exposeLimit := exposeLimit,
        allowlistProvided := cfg.allowedTools.length > 0,
        tools := toolCandidates, references := cfg.references }) }

/-- `Object.values(parts).reduce((a, b) => a + b, 0)`. -/
def askTokenTotal (p : AskAgentTokenParts) : Nat :=
  p.systemPrompt + p.toolCandidates + p.references + p.query + p.planningPayload

/-- The `truncate` helper of `run`: cut to `maxChars` characters and append the
truncation marker when too long. -/
def truncateOutput (maxChars : Nat) (raw : String) : String :=
  if maxChars < raw.length then jsStringTake maxChars raw ++ "\n…(truncated)" else raw

/-- The plan's proposed calls after validation and the `maxToolCalls` cut:
`(plan.toolCalls ?? []).filter(tc => tc?.name && typeof tc.name === "string")
.slice(0, maxToolCalls)` (JS truthiness rejects the empty name). -/
def askRequestedCalls (plan : AskAgentPlan) (maxToolCalls : Int) :
    List AskAgentPlanToolCall :=
  jsSliceTo maxToolCalls ((plan.toolCalls.getD []).filter (fun tc => tc.name ≠ ""))

/-- The execute loop of `run` over the requested calls, in order.  Returns the
`toolCallsExecuted` entries together with the list of `(name, arguments)` pairs
actually sent to the upstream executor.  Synthetic names are refused, disallowed
names are refused, failed executions are recorded; no refusal or failure aborts
the loop. -/
def askExecuteLoop (isAllowed : String → Bool) (maxChars : Nat)
    (execTool : String → Option String → Except String String) :
    List AskAgentPlanToolCall →
    List AskAgentToolCallExecuted × List (String × Option String)
  | [] => ([], [])
  | tc :: rest =>
    let (tail, calls) := askExecuteLoop isAllowed maxChars execTool rest
    if tc.name = "metamcp__ask" ∨ tc.name = "metamcp__find" then
      (⟨tc.name, false, some "Refusing recursive call to synthetic tool", none, none⟩
        :: tail, calls)
    else if isAllowed tc.name = false then
      (⟨tc.name, false, some "Tool not allowed by agent configuration", none, none⟩
        :: tail, calls)
    else
      match execTool tc.name tc.arguments with
      | .ok sres =>
        (⟨tc.name, true, none, some (truncateOutput maxChars sres), none⟩ :: tail,
          (tc.name, tc.arguments) :: calls)
      | .error msg =>
        (⟨tc.name, false, none, none, some msg⟩ :: tail,
          (tc.name, tc.arguments) :: calls)

/-- The expose list of `run`:
`(report.exposeTools ?? plan.exposeTools ?? []).filter(nonEmptyString)
.filter(notSynthetic).filter(isAllowed).slice(0, exposeLimit)`. -/
def askExposeList (isAllowed : String → Bool) (exposeLimit : Int)
    (plan : AskAgentPlan) (report : AskAgentReport) : List String :=
  let base := match report.exposeTools with
    | some l => l
    | none => plan.exposeTools.getD []
  jsSliceTo exposeLimit
    (((base.filter (fun n => n ≠ "")).filter
        (fun n => n ≠ "metamcp__ask" ∧ n ≠ "metamcp__find")).filter
      (fun n => isAllowed n))

/-- The observable side effects of one `run`: the number of `llm.chatJson`
calls issued, the upstream executor invocations, and the
`expose.setExposedTools` invocations (with their arguments). -/
structure AskRunTrace where
  llmCalls : Nat
  execCalls : List (String × Option String)
  exposeCalls : List (String × String × List String)
deriving Repr, DecidableEq

/-- The value `run` resolves with (`tokenUsage` is absent on the
disabled-agent short-circuit). -/
structure AskRunResult where
  answer : String
  toolCallsExecuted : List AskAgentToolCallExecuted
  suggestedTools : List AskAgentSuggestedTool
  exposedTools : List String
  followups : List String
  usage : String
  tokenUsage : Option AskAgentTokenUsage
deriving Repr, DecidableEq

/-- `AskAgent.run` (ask-agent.ts).  `maxToolOutputChars` is the optional
constructor dependency (`?? 6000`); the shortlist dependency is folded into the
oracle (`o.shortlist` is the search result for `shortlistLimit ?? 12`).  Returns
the resolved value together with the side-effect trace. -/
def AskAgent.run (maxToolOutputChars : Option Nat) (o : AskAgentOracle)
    (ctx : AskAgentContext) (cfg : AskAgentConfig) (opts : AskAgentRunOptions) :
    AskRunResult × AskRunTrace :=
  if cfg.enabled = false then
    (⟨"Ask agent is disabled for this namespace.", [], [], [], [],
      "Enable the ask agent in namespace settings to use it.", none⟩, ⟨0, [], []⟩)
  else
    let maxToolCalls := clampNonneg opts.maxToolCalls 20
    let exposeLimit := clampNonneg opts.exposeLimit 50
    let isAllowed := askIsAllowed cfg.deniedTools cfg.allowedTools
    let parts := askTokenParts o ctx cfg opts
    let total := askTokenTotal parts
    let tokenUsage : AskAgentTokenUsage :=
      { model := cfg.model, budget := 200000, total := total, parts := parts }
    if 200000 < total then
      (⟨s!"Token budget exceeded before execution: {total}/200000. Reduce prompt/docs/tools context.",
        [], [], [], [],
        "Reduce the agent context (prompt/docs) or lower discovery/tool payload size, then retry.",
        some tokenUsage⟩, ⟨0, [], []⟩)
    else
      let plan := o.plan
      let requested := askRequestedCalls plan maxToolCalls
      let executed := askExecuteLoop isAllowed (maxToolOutputChars.getD 6000)
        o.execTool requested
      let report := o.report
      let exposeTools := askExposeList isAllowed exposeLimit plan report
      let exposeCalls := if exposeTools.length > 0 then
        [(ctx.sessionId, ctx.namespaceUuid, exposeTools)] else []
      (⟨report.answer.getD (plan.directAnswer.getD ""),
        executed.1,
        report.suggestedTools.getD [],
        exposeTools,
        (match report.followups with
         | some f => f
         | none => plan.followups.getD []),
        "Any `exposedTools` have been added to your session. Call them directly by name.",
        some tokenUsage⟩, ⟨2, executed.2, exposeCalls⟩)

/-! ### `uploadAgentDocument` (namespaces implementations + document repository) -/

/-- A stored `NamespaceAgentDocument` row (fields the budget logic reads). -/
structure AgentDoc where
  filename : String
  mime : String
  content : String
  token_count : Nat
deriving Repr, DecidableEq

/-- The serialized outcome of `uploadAgentDocument`. -/
structure UploadResult where
  success : Bool
  message : String
deriving Repr, DecidableEq

/-- The agent row fields `uploadAgentDocument` reads (`model` may be null or
empty; `agent.model || "gpt-4o-mini"` treats both as absent). -/
structure UploadAgent where
  namespace_uuid : String
  model : Option String
deriving Repr, DecidableEq

/-- The namespace row fields `uploadAgentDocument` reads. -/
structure UploadNamespace where
  user_id : Option String
deriving Repr, DecidableEq

/-- `x || d` on a JS string: the default replaces both null/undefined and the
empty string. -/
def jsOrString (x : Option String) (d : String) : String :=
  match x with
  | some s => if s = "" then d else s
  | none => d

/-- `namespacesImplementations.uploadAgentDocument`: resolve agent and
namespace, check ownership, enforce the 200 000-token document budget
(`sum(existing token_count) + count(model, content) ≤ 200000`), and only then
insert the document (whose stored `token_count` is computed by
`namespaceAgentDocumentsRepository.addDoc` with the same model).  `count` is the
external tokenizer port; `existingDocs` is `listByAgent`'s result.  Returns the
response together with the resulting document list. -/
def uploadAgentDocument (count : String → String → Nat)
    (agentRow : Option UploadAgent) (namespaceRow : Option UploadNamespace)
    (userId : String) (existingDocs : List AgentDoc)
    (filename : String) (mime : Option String) (content : String) :
    UploadResult × List AgentDoc :=
  match agentRow with
  | none => (⟨false, "Agent not found"⟩, existingDocs)
  | some agent =>
    match namespaceRow with
    | none => (⟨false, "Namespace not found"⟩, existingDocs)
    | some ns =>
      match ns.user_id with
      | none =>
        (⟨false, "Access denied: You can only upload docs for agents you own"⟩,
          existingDocs)
      | some owner =>
        if owner ≠ userId then
          (⟨false, "Access denied: You can only upload docs for agents you own"⟩,
            existingDocs)
        else
          let model := jsOrString agent.model "gpt-4o-mini"
          let existingTokens := (existingDocs.map (fun d => d.token_count)).sum
          let newTokens := count model content
          if 200000 < existingTokens + newTokens then
            (⟨false,
              s!"Token budget exceeded for agent docs: {existingTokens + newTokens}/200000 tokens"⟩,
              existingDocs)
          else
            (⟨true, "Document uploaded successfully"⟩,
              existingDocs ++
                [⟨filename, mime.getD "text/plain", content, count model content⟩])

/-! ### `refreshTools` (namespaces implementations) -/

/-- One entry of the `refreshTools` input (`{name, description?, inputSchema}`
as a downstream client saw it, i.e. after override rewriting). -/
structure RefreshToolInputItem where
  name : String
  description : Option String
  inputSchema : String
deriving Repr, DecidableEq

/-- A parsed input tool (`parsedTools` entries). -/
structure ParsedTool where
  serverName : String
  toolName : String
  description : String
  inputSchema : String
deriving Repr, DecidableEq

/-- The serialized outcome of `refreshTools` (counts absent on failure paths). -/
structure RefreshResult where
  success : Bool
  message : String
  toolsCreated : Option Nat
  mappingsCreated : Option Nat
deriving Repr, DecidableEq

/-- Invalidation calls `refreshTools` can issue against the pool and the
override cache (each is fire-and-forget; its errors are logged, never
propagated). -/
inductive PoolEffect where
  | invalidateIdleServer (namespaceUuid : String)
  | invalidateOpenApiSessions (namespaceUuids : List String)
  | clearOverrideCache (namespaceUuid : String)
deriving Repr, DecidableEq

/-- The database context of one `refreshTools` call.  `namespaceUserId` is
`findByUuid`'s result (`none` = namespace missing, `some u` = its `user_id`);
`overrides` is the namespace's override map; `servers` maps the namespace's
server names to uuids (`findByUuidWithServers`). -/
structure RefreshEnv where
  namespaceUserId : Option (Option String)
  overrides : List (String × String)
  servers : List (String × String)
deriving Repr, DecidableEq

/-- Modelled from the spec: `mapOverrideNameToOriginal` of the tool-overrides
middleware (its source file is not in the provided sources; spec §4.5 keeps a
per-namespace `override_name → original_name` map and rewrites an incoming
override name to the original).  Returns the original full name when the given
full name is an override, else the name unchanged. -/
def mapOverrideNameToOriginal (overrides : List (String × String))
    (fullToolName : String) : String :=
  (alookup fullToolName overrides).getD fullToolName

/-- The parsing loop of `refreshTools`: split each name on the first `__`
(skip names without the separator), skip names that are overrides (they map to
a different original), skip empty server or tool parts, and keep
`{serverName, toolName, description || "", inputSchema}`. -/
def refreshParseTools (overrides : List (String × String))
    (items : List RefreshToolInputItem) : List ParsedTool :=
  items.filterMap (fun tool =>
    match parseToolName tool.name with
    | none => none
    | some (serverName, toolName) =>
      let fullToolName := serverName ++ "__" ++ toolName
      if mapOverrideNameToOriginal overrides fullToolName ≠ fullToolName then none
      else if serverName = "" ∨ toolName = "" then none
      else some ⟨serverName, toolName, tool.description.getD "", tool.inputSchema⟩)

/-- Resolve a parsed tool against the namespace's servers: direct name match,
else the nested-MetaMCP fallback (split the server part on its first `__`, look
up the head, and fold the remainder back into the tool name).  `none` = no
server found (the tool is skipped with a warning). -/
def refreshResolve (servers : List (String × String)) (p : ParsedTool) :
    Option (String × String × ParsedTool) :=
  match alookup p.serverName servers with
  | some serverUuid => some (p.serverName, serverUuid, p)
  | none =>
    match parseToolName p.serverName with
    | none => none
    | some (actualServerName, remainingPart) =>
      match alookup actualServerName servers with
      | none => none
      | some serverUuid =>
        some (actualServerName, serverUuid,
          { p with serverName := actualServerName,
                   toolName := remainingPart ++ "__" ++ p.toolName })

/-- Append a resolved tool to its server's group (`toolsByServerName`),
creating the group on first sight (JS object: insertion-ordered keys). -/
def refreshGroupAdd (groups : List (String × String × List ParsedTool))
    (serverName serverUuid : String) (t : ParsedTool) :
    List (String × String × List ParsedTool) :=
  match groups with
  | [] => [(serverName, serverUuid, [t])]
  | (n, u, ts) :: rest =>
    if n = serverName then (n, u, ts ++ [t]) :: rest
    else (n, u, ts) :: refreshGroupAdd rest serverName serverUuid t

/-- The grouping loop of `refreshTools` over the parsed tools. -/
def refreshGroups (servers : List (String × String)) (parsedTools : List ParsedTool) :
    List (String × String × List ParsedTool) :=
  parsedTools.foldl (fun groups p =>
    match refreshResolve servers p with
    | none => groups
    | some (serverName, serverUuid, t) => refreshGroupAdd groups serverName serverUuid t) []

/-- `namespacesImplementations.refreshTools`: permission check, parse, group by
server, bulk-upsert each group's tools and ACTIVE memberships (each upsert
returns one row per input tool, so the reported counts are the group sizes),
then fire the pool invalidations for the namespace.  The returned effect list
records, in order, the invalidations issued after a successful upsert pass;
the early-success and failure paths issue none. -/
def refreshTools (env : RefreshEnv) (namespaceUuid : String)
    (tools : List RefreshToolInputItem) (userId : String) :
    RefreshResult × List PoolEffect :=
  match env.namespaceUserId with
  | none => (⟨false, "Namespace not found", none, none⟩, [])
  | some ownerId =>
    if (match ownerId with | some o => decide (o ≠ userId) | none => false) = true then
      (⟨false, "Access denied: You can only refresh tools for namespaces you own",
        none, none⟩, [])
    else if tools.length = 0 then
      (⟨true, "No tools to refresh", some 0, some 0⟩, [])
    else
      let parsedTools := refreshParseTools env.overrides tools
      if parsedTools.length = 0 then
        (⟨true, "No valid tools to refresh after parsing", some 0, some 0⟩, [])
      else
        let groups := refreshGroups env.servers parsedTools
        if groups.length = 0 then
          (⟨false, "No servers found for the provided tools", none, none⟩, [])
        else
          let totalToolsCreated := (groups.map (fun g => g.2.2.length)).sum
          let totalMappingsCreated := totalToolsCreated
          (⟨true,
            s!"Successfully refreshed {totalToolsCreated} tools with {totalMappingsCreated} mappings",
            some totalToolsCreated, some totalMappingsCreated⟩,
            [.invalidateIdleServer namespaceUuid,
             .invalidateOpenApiSessions [namespaceUuid]])

/-! ### Live Session Registry (`LiveConnectionsTracker`) -/

/-- `TransportType`. -/
inductive Transport where
  | SSE
  | StreamableHTTP
deriving Repr, DecidableEq

/-- `ConnectionInfo`. -/
structure ConnectionInfo where
  endpointName : String
  namespaceUuid : String
  transport : Transport
deriving Repr, DecidableEq

/-- The tracker's private state: the `connections` map, the nested
`endpointCounts` map, and the two transport counters (a `Map` with the fixed
keys `SSE` and `StreamableHTTP`, both initialized to 0). -/
structure TrackerState where
  connections : List (String × ConnectionInfo)
  endpointCounts : List (String × List (String × Int))
  sseCount : Int
  shttpCount : Int
deriving Repr, DecidableEq

/-- The state of a freshly constructed tracker. -/
def TrackerState.init : TrackerState := ⟨[], [], 0, 0⟩

/-- `addConnection`: a duplicate `session_id` is skipped (with a warning);
otherwise record the connection, bump the `(endpoint, namespace)` counter and
the transport counter. -/
def addConnection (s : TrackerState) (sessionId endpointName namespaceUuid : String)
    (transport : Transport) : TrackerState :=
  if (alookup sessionId s.connections).isSome then s
  else
    let connections := s.connections ++ [(sessionId, ⟨endpointName, namespaceUuid, transport⟩)]
    let namespaceMap := (alookup endpointName s.endpointCounts).getD []
    let currentCount := (alookup namespaceUuid namespaceMap).getD 0
    let endpointCounts := aset endpointName (aset namespaceUuid (currentCount + 1) namespaceMap)
      s.endpointCounts
    match transport with
    | .SSE => ⟨connections, endpointCounts, s.sseCount + 1, s.shttpCount⟩
    | .StreamableHTTP => ⟨connections, endpointCounts, s.sseCount, s.shttpCount + 1⟩

/-- `removeConnection`: an absent `session_id` is ignored; otherwise drop the
connection, decrement (floored at 0) and clean up the `(endpoint, namespace)`
counter, delete an emptied endpoint map, and decrement (floored at 0) the
transport counter. -/
def removeConnection (s : TrackerState) (sessionId : String) : TrackerState :=
  match alookup sessionId s.connections with
  | none => s
  | some connection =>
    let connections := aerase sessionId s.connections
    let endpointCounts :=
      match alookup connection.endpointName s.endpointCounts with
      | none => s.endpointCounts
      | some namespaceMap =>
        let currentCount := (alookup connection.namespaceUuid namespaceMap).getD 0
        let newCount := max 0 (currentCount - 1)
        let namespaceMap' :=
          if newCount = 0 then aerase connection.namespaceUuid namespaceMap
          else aset connection.namespaceUuid newCount namespaceMap
        if namespaceMap'.length = 0 then aerase connection.endpointName s.endpointCounts
        else aset connection.endpointName namespaceMap' s.endpointCounts
    match connection.transport with
    | .SSE => ⟨connections, endpointCounts, max 0 (s.sseCount - 1), s.shttpCount⟩
    | .StreamableHTTP => ⟨connections, endpointCounts, s.sseCount, max 0 (s.shttpCount - 1)⟩

/-- The number of stored connections matching an `(endpoint, namespace)` pair. -/
def countEN (conns : List (String × ConnectionInfo)) (e n : String) : Nat :=
  (conns.filter (fun q => q.2.endpointName = e ∧ q.2.namespaceUuid = n)).length

/-- The number of stored connections matching `(endpoint, namespace, transport)`. -/
def countENT (conns : List (String × ConnectionInfo)) (e n : String) (t : Transport) : Nat :=
  (conns.filter (fun q =>
    q.2.endpointName = e ∧ q.2.namespaceUuid = n ∧ q.2.transport = t)).length

/-- The number of stored connections on a transport. -/
def countT (conns : List (String × ConnectionInfo)) (t : Transport) : Nat :=
  (conns.filter (fun q => q.2.transport = t)).length

/-- One `byEndpoint` entry of `getStats`. -/
structure EndpointStat where
  endpointName : String
  namespaceUuid : String
  count : Int
  sse : Int
  shttp : Int
deriving Repr, DecidableEq

/-- `LiveConnectionsStats` (`total`, `byTransport`, `byEndpoint`). -/
structure LiveConnectionsStats where
  total : Nat
  sseTotal : Int
  shttpTotal : Int
  byEndpoint : List EndpointStat
deriving Repr, DecidableEq

/-- `getStats`: one `byEndpoint` entry per stored `(endpoint, namespace)`
counter, its per-transport sub-counts recomputed by filtering `connections`,
sorted by `count` descending; `total` is the size of the connections map;
`byTransport` reads the two counters (`|| 0`). -/
def getStats (s : TrackerState) : LiveConnectionsStats :=
  let byEndpoint := s.endpointCounts.flatMap (fun p =>
    p.2.map (fun q =>
      ({ endpointName := p.1, namespaceUuid := q.1, count := q.2,
         sse := (countENT s.connections p.1 q.1 .SSE : Int),
         shttp := (countENT s.connections p.1 q.1 .StreamableHTTP : Int) } : EndpointStat)))
  { total := s.connections.length,
    sseTotal := s.sseCount,
    shttpTotal := s.shttpCount,
    byEndpoint := sortBy (fun a b => decide (b.count ≤ a.count)) byEndpoint }

/-- A tracker operation (the mutating API surface the registry claim ranges
over). -/
inductive TrackerOp where
  | add (sessionId endpointName namespaceUuid : String) (transport : Transport)
  | remove (sessionId : String)
deriving Repr, DecidableEq

/-- Apply one operation. -/
def applyOp (s : TrackerState) : TrackerOp → TrackerState
  | .add sid e n t => addConnection s sid e n t
  | .remove sid => removeConnection s sid

/-- Run a finite operation sequence from the initial tracker state. -/
def runOps (ops : List TrackerOp) : TrackerState := ops.foldl applyOp TrackerState.init

/-! ### Spec-side definitions and auxiliary predicates -/

/-- Written from the amended expose contract (for comparison with
`AskAgent.run`): the expose list is the REPORT's `exposeTools` when that field
is present, otherwise the PLAN's (empty when neither is); empty names, the two
synthetic names, and disallowed names are dropped; the first
`min(exposeLimit, 50)` (floored at 0) entries are kept. -/
def askExposeSpecList (report : AskAgentReport) (plan : AskAgentPlan)
    (denied allowed : List String) (exposeLimitRaw : Int) : List String :=
  let chosen := report.exposeTools.getD (plan.exposeTools.getD [])
  (chosen.filter (fun n =>
      n ≠ "" ∧ n ≠ "metamcp__ask" ∧ n ≠ "metamcp__find" ∧
        n ∉ denied ∧ (allowed = [] ∨ n ∈ allowed))).take
    (clampNonneg exposeLimitRaw 50).toNat

/-- The refusal reason `AskAgent.run` records for a proposed call it does not
execute. -/
def refuseReason (name : String) : String :=
  if name = "metamcp__ask" ∨ name = "metamcp__find" then
    "Refusing recursive call to synthetic tool"
  else "Tool not allowed by agent configuration"

/-- Whether the execute step actually invokes the upstream executor for a
proposed call: the name is not synthetic and is allowed. -/
def askCallExecutes (isAllowed : String → Bool) (tc : AskAgentPlanToolCall) : Bool :=
  !(tc.name = "metamcp__ask" ∨ tc.name = "metamcp__find") && isAllowed tc.name

/-- The `(endpoint, namespace)` key pairs stored in a nested `endpointCounts`
map. -/
def pairsOf (ec : List (String × List (String × Int))) : List (String × String) :=
  ec.flatMap (fun p => p.2.map (fun q => (p.1, q.1)))

/-- The private-state invariant of the live-connections tracker: both map
levels have duplicate-free keys, every stored counter equals the number of
matching connections, every connection has a counter entry, and the two
transport counters count the matching connections. -/
structure TrackerInv (s : TrackerState) : Prop where
  outerNodup : (s.endpointCounts.map Prod.fst).Nodup
  innerNodup : ∀ p ∈ s.endpointCounts, (p.2.map Prod.fst).Nodup
  counts : ∀ e m, alookup e s.endpointCounts = some m →
    ∀ n c, alookup n m = some c → c = (countEN s.connections e n : Int)
  cover : ∀ q ∈ s.connections, ∃ m, alookup q.2.endpointName s.endpointCounts = some m ∧
    (alookup q.2.namespaceUuid m).isSome = true
  sse : s.sseCount = (countT s.connections .SSE : Int)
  shttp : s.shttpCount = (countT s.connections .StreamableHTTP : Int)

/-! ### Concrete instances used by witnesses and counterexamples -/

/-- A namespace index with a single cached tool `s__t`. -/
def entryW : ToolIndexEntry :=
  ⟨"t", "s__t", "s", "reads a file", "{}", [], "h"⟩

/-- A one-namespace Discovery cache. -/
def cacheW : List (String × List (String × ToolIndexEntry)) :=
  [("ns1", [("s__t", entryW)])]

/-- A similarity oracle scoring every cached vector 1. -/
def simW : List ℚ → ℚ := fun _ => 1

/-- A two-tool namespace index (scores fixed by `simW2`). -/
def cacheW2 : List (String × List (String × ToolIndexEntry)) :=
  [("ns1", [("s__t", entryW), ("s__u", ⟨"u", "s__u", "s", "writes a file", "{}", [7], "h2"⟩)])]

/-- Scores 1 for the empty vector (tool `s__t`) and 1/2 for the other. -/
def simW2 : List ℚ → ℚ := fun v => if v = [] then 1 else mkRat 1 2

/-- A run context shared by the Ask-Agent witnesses. -/
def ctxW : AskAgentContext := ⟨"ns1", "sess1", none⟩

/-- Default-ish run options. -/
def optsW : AskAgentRunOptions := ⟨"q", 3, 50⟩

/-- An enabled agent configuration with no allow/deny restrictions. -/
def cfgOpenW : AskAgentConfig := ⟨true, "m", "", none, [], [], 3, 5⟩

/-- An enabled agent configuration denying `s__w`. -/
def cfgDenyW : AskAgentConfig := ⟨true, "m", "", none, [], ["s__w"], 3, 5⟩

/-- An oracle whose tokenizer charges 50000 tokens per counted string, driving
the Ask-Agent budget check over 200000. -/
def oracleOverflowW : AskAgentOracle :=
  { count := fun _ _ => 50000, shortlist := [],
    stringifyCandidates := fun _ => "", stringifyReferences := fun _ => "",
    stringifyPlanning := fun _ => "",
    plan := ⟨none, none, none, none⟩,
    report := ⟨none, none, none, none, none⟩,
    execTool := fun _ _ => .ok "" }

/-- An oracle with a free tokenizer whose report exposes `a__x` while its plan
exposes `b__y` (exercising the `report ?? plan` fallback). -/
def oracleExposeW : AskAgentOracle :=
  { count := fun _ _ => 0, shortlist := [],
    stringifyCandidates := fun _ => "", stringifyReferences := fun _ => "",
    stringifyPlanning := fun _ => "",
    plan := ⟨none, none, some ["b__y"], none⟩,
    report := ⟨some "a", none, some ["a__x"], none, none⟩,
    execTool := fun _ _ => .ok "" }

/-- An oracle whose plan proposes a synthetic call, a denied call and an
allowed call. -/
def oracleExecW : AskAgentOracle :=
  { count := fun _ _ => 0, shortlist := [],
    stringifyCandidates := fun _ => "", stringifyReferences := fun _ => "",
    stringifyPlanning := fun _ => "",
    plan := ⟨none, some [⟨"metamcp__find", none, none⟩, ⟨"s__w", none, none⟩,
      ⟨"s__t", some "{}", none⟩], none, none⟩,
    report := ⟨some "a", none, none, none, none⟩,
    execTool := fun _ _ => .ok "ok" }

/-- A `refreshTools` environment: a public namespace with one server `s`. -/
def refreshEnvW : RefreshEnv := ⟨some none, [], [("s", "u1")]⟩

/-- A one-tool `refreshTools` payload. -/
def refreshToolsW : List RefreshToolInputItem := [⟨"s__t", none, "{}"⟩]

/-! ## Lemmas: association lists (JS `Map`) -/

theorem alookup_aset_self {β : Type} (k : String) (v : β) (l : List (String × β)) :
    alookup k (aset k v l) = some v := by
  induction l with
  | nil => simp [aset, alookup]
  | cons p rest ih =>
    obtain ⟨k1, v1⟩ := p
    by_cases h : k1 = k
    · simp [aset, alookup, h]
    · simp [aset, alookup, h, ih]

theorem alookup_aset_ne {β : Type} {k k' : String} (v : β) (l : List (String × β))
    (h : k' ≠ k) : alookup k' (aset k v l) = alookup k' l := by
  induction l with
  | nil => simp [aset, alookup, Ne.symm h]
  | cons p rest ih =>
    obtain ⟨k1, v1⟩ := p
    by_cases hk : k1 = k
    · simp [aset, alookup, hk, Ne.symm h]
    · by_cases hk' : k1 = k'
      · subst hk'
        simp [aset, alookup, hk]
      · simp [aset, alookup, hk, hk', ih]

theorem alookup_mem {β : Type} {k : String} {v : β} {l : List (String × β)} :
    alookup k l = some v → (k, v) ∈ l := by
  induction l with
  | nil => simp [alookup]
  | cons p rest ih =>
    obtain ⟨k1, v1⟩ := p
    by_cases h : k1 = k
    · subst h
      simp only [alookup, if_true]
      rintro h2
      injection h2 with h2
      subst h2
      exact List.mem_cons_self _ _
    · simp only [alookup, h, if_false]
      intro h2
      exact List.mem_cons_of_mem _ (ih h2)

theorem alookup_isSome_iff {β : Type} (k : String) (l : List (String × β)) :
    (alookup k l).isSome = true ↔ k ∈ l.map Prod.fst := by
  induction l with
  | nil => simp [alookup]
  | cons p rest ih =>
    obtain ⟨k1, v1⟩ := p
    by_cases h : k1 = k
    · simp [alookup, h]
    · simp [alookup, h, ih, Ne.symm h]

theorem alookup_eq_none_iff {β : Type} (k : String) (l : List (String × β)) :
    alookup k l = none ↔ k ∉ l.map Prod.fst := by
  rw [← alookup_isSome_iff]
  cases alookup k l <;> simp

theorem alookup_of_mem_nodup {β : Type} {k : String} {v : β} {l : List (String × β)}
    (hnd : (l.map Prod.fst).Nodup) (hmem : (k, v) ∈ l) : alookup k l = some v := by
  induction l with
  | nil => simp at hmem
  | cons p rest ih =>
    obtain ⟨k1, v1⟩ := p
    rw [List.map_cons, List.nodup_cons] at hnd
    rcases List.mem_cons.1 hmem with h | h
    · rw [← h]
      simp [alookup]
    · have hk : k1 ≠ k := by
        intro he
        refine hnd.1 ?_
        rw [he]
        exact List.mem_map.mpr ⟨(k, v), h, rfl⟩
      simp only [alookup, hk, if_false]
      exact ih hnd.2 h

theorem keys_aset {β : Type} (k : String) (v : β) (l : List (String × β)) :
    (aset k v l).map Prod.fst =
      if k ∈ l.map Prod.fst then l.map Prod.fst else l.map Prod.fst ++ [k] := by
  induction l with
  | nil => simp [aset]
  | cons p rest ih =>
    obtain ⟨k1, v1⟩ := p
    by_cases h : k1 = k
    · simp [aset, h]
    · simp only [aset, h, if_false, List.map_cons, ih]
      by_cases h2 : k ∈ rest.map Prod.fst
      · simp [h2, Ne.symm h]
      · simp [h2, Ne.symm h]

theorem nodup_keys_aset {β : Type} (k : String) (v : β) {l : List (String × β)}
    (hnd : (l.map Prod.fst).Nodup) : ((aset k v l).map Prod.fst).Nodup := by
  rw [keys_aset]
  by_cases h : k ∈ l.map Prod.fst
  · simpa [h]
  · simp only [h, if_false]
    refine List.nodup_append.mpr ⟨hnd, List.nodup_singleton k, ?_⟩
    intro a ha hb
    rw [List.mem_singleton] at hb
    exact h (hb ▸ ha)

theorem mem_aset {β : Type} {p : String × β} {k : String} {v : β} {l : List (String × β)}
    (h : p ∈ aset k v l) : p = (k, v) ∨ p ∈ l := by
  induction l with
  | nil => simpa [aset] using h
  | cons q rest ih =>
    obtain ⟨k1, v1⟩ := q
    by_cases hq : k1 = k
    · simp only [aset, hq, if_true] at h
      rcases List.mem_cons.1 h with h | h
      · exact Or.inl h
      · exact Or.inr (List.mem_cons_of_mem _ h)
    · simp only [aset, hq, if_false] at h
      rcases List.mem_cons.1 h with h | h
      · exact Or.inr (h ▸ List.mem_cons_self _ _)
      · rcases ih h with h | h
        · exact Or.inl h
        · exact Or.inr (List.mem_cons_of_mem _ h)

theorem aerase_sublist {β : Type} (k : String) (l : List (String × β)) :
    (aerase k l).Sublist l := by
  induction l with
  | nil => simp [aerase]
  | cons p rest ih =>
    obtain ⟨k1, v1⟩ := p
    by_cases h : k1 = k
    · simp only [aerase, h, if_true]
      exact List.sublist_cons_self _ _
    · simp only [aerase, h, if_false]
      exact ih.cons₂ _

theorem mem_aerase {β : Type} {p : String × β} {k : String} {l : List (String × β)}
    (h : p ∈ aerase k l) : p ∈ l := (aerase_sublist k l).mem h

theorem nodup_keys_aerase {β : Type} (k : String) {l : List (String × β)}
    (hnd : (l.map Prod.fst).Nodup) : ((aerase k l).map Prod.fst).Nodup :=
  ((aerase_sublist k l).map Prod.fst).nodup hnd

theorem alookup_aerase_ne {β : Type} {k k' : String} (l : List (String × β))
    (h : k' ≠ k) : alookup k' (aerase k l) = alookup k' l := by
  induction l with
  | nil => simp [aerase]
  | cons p rest ih =>
    obtain ⟨k1, v1⟩ := p
    by_cases hk : k1 = k
    · simp [aerase, alookup, hk, Ne.symm h]
    · by_cases hk' : k1 = k'
      · subst hk'
        simp [aerase, alookup, hk]
      · simp [aerase, alookup, hk, hk', ih]

theorem alookup_aerase_self {β : Type} {k : String} {l : List (String × β)}
    (hnd : (l.map Prod.fst).Nodup) : alookup k (aerase k l) = none := by
  induction l with
  | nil => simp [aerase, alookup]
  | cons p rest ih =>
    obtain ⟨k1, v1⟩ := p
    rw [List.map_cons, List.nodup_cons] at hnd
    by_cases h : k1 = k
    · simp only [aerase, h, if_true]
      rw [alookup_eq_none_iff]
      exact h ▸ hnd.1
    · simp only [aerase, h, if_false, alookup, if_neg h]
      exact ih hnd.2

theorem aerase_decomp {β : Type} {k : String} {v : β} {l : List (String × β)}
    (h : alookup k l = some v) :
    ∃ l₁ l₂, l = l₁ ++ (k, v) :: l₂ ∧ aerase k l = l₁ ++ l₂ := by
  induction l with
  | nil => simp [alookup] at h
  | cons p rest ih =>
    obtain ⟨k1, v1⟩ := p
    by_cases hk : k1 = k
    · subst hk
      simp only [alookup, if_true] at h
      injection h with h
      subst h
      exact ⟨[], rest, by simp [aerase]⟩
    · simp only [alookup, hk, if_false] at h
      obtain ⟨l₁, l₂, he, hr⟩ := ih h
      exact ⟨(k1, v1) :: l₁, l₂, by simp [he], by simp [aerase, hk, hr]⟩

/-! ## Lemmas: JS `Set` and `Array.sort` models -/

theorem mem_jsSetAdd {x y : String} {s : List String} :
    x ∈ jsSetAdd s y ↔ x ∈ s ∨ x = y := by
  by_cases h : y ∈ s
  · simp only [jsSetAdd, h, if_true]
    constructor
    · exact Or.inl
    · rintro (hx | rfl)
      · exact hx
      · exact h
  · simp [jsSetAdd, h]

theorem mem_foldl_jsSetAdd (l : List String) (acc : List String) (x : String) :
    x ∈ l.foldl jsSetAdd acc ↔ x ∈ acc ∨ x ∈ l := by
  induction l generalizing acc with
  | nil => simp
  | cons y ys ih =>
    simp only [List.foldl_cons, ih, mem_jsSetAdd, List.mem_cons]
    tauto

theorem mem_jsSetOf {l : List String} {x : String} : x ∈ jsSetOf l ↔ x ∈ l := by
  simp [jsSetOf, mem_foldl_jsSetAdd]

theorem perm_insertSorted {α : Type} (le : α → α → Bool) (x : α) (l : List α) :
    (insertSorted le x l).Perm (x :: l) := by
  induction l with
  | nil => simp [insertSorted]
  | cons y ys ih =>
    by_cases h : le x y
    · simp [insertSorted, h]
    · simp only [insertSorted, h, if_false]
      exact (ih.cons y).trans (List.Perm.swap x y ys)

theorem mem_insertSorted {α : Type} {le : α → α → Bool} {x z : α} {l : List α} :
    z ∈ insertSorted le x l ↔ z = x ∨ z ∈ l := by
  rw [(perm_insertSorted le x l).mem_iff]
  simp

theorem perm_sortBy {α : Type} (le : α → α → Bool) (l : List α) :
    (sortBy le l).Perm l := by
  induction l with
  | nil => simp [sortBy]
  | cons x xs ih =>
    have h : sortBy le (x :: xs) = insertSorted le x (sortBy le xs) := rfl
    rw [h]
    exact (perm_insertSorted le x (sortBy le xs)).trans (ih.cons x)

theorem pairwise_insertSorted {α : Type} {le : α → α → Bool}
    (htrans : ∀ a b c, le a b = true → le b c = true → le a c = true)
    (htot : ∀ a b, le a b = true ∨ le b a = true) (x : α) {l : List α}
    (hp : l.Pairwise (fun a b => le a b = true)) :
    (insertSorted le x l).Pairwise (fun a b => le a b = true) := by
  induction l with
  | nil => simp [insertSorted]
  | cons y ys ih =>
    rw [List.pairwise_cons] at hp
    by_cases h : le x y
    · simp only [insertSorted, h, if_true]
      refine List.pairwise_cons.mpr ⟨?_, List.pairwise_cons.mpr hp⟩
      intro z hz
      rcases List.mem_cons.1 hz with rfl | hz
      · exact h
      · exact htrans x y z h (hp.1 z hz)
    · simp only [insertSorted, h, if_false]
      refine List.pairwise_cons.mpr ⟨?_, ih hp.2⟩
      intro z hz
      rcases mem_insertSorted.1 hz with hzx | hz
      · rw [hzx]
        rcases htot x y with h2 | h2
        · exact absurd h2 h
        · exact h2
      · exact hp.1 z hz

theorem pairwise_sortBy {α : Type} {le : α → α → Bool}
    (htrans : ∀ a b c, le a b = true → le b c = true → le a c = true)
    (htot : ∀ a b, le a b = true ∨ le b a = true) (l : List α) :
    (sortBy le l).Pairwise (fun a b => le a b = true) := by
  induction l with
  | nil => simp [sortBy]
  | cons x xs ih => exact pairwise_insertSorted htrans htot x ih

/-! ## Lemmas and claim theorems: Discovery search -/

theorem searchScores_score {entries : List ToolIndexEntry} {sim : List ℚ → ℚ}
    {th : ℚ} {r : SearchResult} (h : r ∈ searchScores entries sim th) :
    th ≤ r.score := by
  simp only [searchScores, List.mem_filterMap] at h
  obtain ⟨e, _, he⟩ := h
  by_cases hc : th ≤ sim e.embedding
  · rw [if_pos hc] at he
    cases he
    exact hc
  · rw [if_neg hc] at he
    cases he

/-- C7: `DiscoveryService.search` over a non-empty namespace index returns only
results whose score reaches the threshold, in descending score order, and at
most `limit` of them. -/
theorem discovery_search_spec (cache : List (String × List (String × ToolIndexEntry)))
    (ns : String) (sim : List ℚ → ℚ) (limit : Int) (threshold : ℚ)
    (m : List (String × ToolIndexEntry)) (hm : alookup ns cache = some m)
    (hne : m ≠ []) (hl : 0 ≤ limit) :
    (∀ r ∈ DiscoveryService.search cache ns sim limit threshold, threshold ≤ r.score) ∧
    (DiscoveryService.search cache ns sim limit threshold).Pairwise
      (fun a b => b.score ≤ a.score) ∧
    (DiscoveryService.search cache ns sim limit threshold).length ≤ limit.toNat := by
  have hlen : ¬ m.length = 0 := by
    simpa [List.length_eq_zero] using hne
  have hslice : ∀ (l : List SearchResult), jsSliceTo limit l = l.take limit.toNat := by
    intro l
    simp [jsSliceTo, not_lt.mpr hl]
  have hs : DiscoveryService.search cache ns sim limit threshold =
      (sortBy (fun a b => decide (b.score ≤ a.score))
        (searchScores (m.map Prod.snd) sim threshold)).take limit.toNat := by
    simp only [DiscoveryService.search, hm, hlen, if_false, hslice]
  refine ⟨?_, ?_, ?_⟩
  · intro r hr
    rw [hs] at hr
    have hr2 : r ∈ sortBy (fun a b => decide (b.score ≤ a.score))
        (searchScores (m.map Prod.snd) sim threshold) := List.take_subset _ _ hr
    exact searchScores_score ((perm_sortBy _ _).mem_iff.1 hr2)
  · rw [hs]
    have hp := @pairwise_sortBy SearchResult
      (fun a b : SearchResult => decide (b.score ≤ a.score))
      (fun a b c h1 h2 => by
        simp only [decide_eq_true_eq] at *
        exact le_trans h2 h1)
      (fun a b => by
        simp only [decide_eq_true_eq]
        exact le_total b.score a.score)
      (searchScores (m.map Prod.snd) sim threshold)
    have hp2 := hp.sublist (List.take_sublist limit.toNat _)
    exact hp2.imp (fun h => by simpa using h)
  · rw [hs]
    exact List.length_take_le _ _

/-- Witness for C7 at a concrete one-tool index with `limit = 5`,
`threshold = 0.3`. -/
theorem discovery_search_spec_witness :
    alookup "ns1" cacheW = some [("s__t", entryW)] ∧
    ([("s__t", entryW)] : List (String × ToolIndexEntry)) ≠ [] ∧
    (0 : Int) ≤ 5 ∧
    (∀ r ∈ DiscoveryService.search cacheW "ns1" simW 5 (3/10), (3/10 : ℚ) ≤ r.score) :=
  ⟨rfl, by decide, by decide,
    (discovery_search_spec cacheW "ns1" simW 5 (3/10) [("s__t", entryW)] rfl
      (by decide) (by decide)).1⟩

/-! ## Lemmas and claim theorems: Smart-Discovery find -/

theorem getDiscovered_setTools (st : DiscoveredSessions) (sid ns : String)
    (l : List String) :
    DiscoveredToolsSessionManager.getDiscoveredToolNames
      (DiscoveredToolsSessionManager.setTools st sid ns l) sid ns = jsSetOf l := by
  simp [DiscoveredToolsSessionManager.setTools,
    DiscoveredToolsSessionManager.getDiscoveredToolNames, alookup_aset_self]

theorem handleFind_found (cache : List (String × List (String × ToolIndexEntry)))
    (sim : List ℚ → ℚ) (st : DiscoveredSessions) (sid ns q : String)
    (lim : Option Int) (hq : q ≠ "")
    (hne : DiscoveryService.search cache ns sim (effectiveFindLimit lim) (mkRat 3 10) ≠ []) :
    handleFind cache sim st sid ns ⟨some q, lim⟩ =
      (FindResult.found q
        ((DiscoveryService.search cache ns sim (effectiveFindLimit lim) (mkRat 3 10)).map
          (fun r => ⟨r.tool.name, r.tool.description, roundScore r.score,
            r.tool.inputSchema⟩)),
       DiscoveredToolsSessionManager.setTools st sid ns
         ((DiscoveryService.search cache ns sim (effectiveFindLimit lim) (mkRat 3 10)).map
           (fun r => r.tool.name))) := by
  have hlen : ¬ (DiscoveryService.search cache ns sim (effectiveFindLimit lim)
      (mkRat 3 10)).length = 0 := by
    simpa [List.length_eq_zero] using hne
  simp [handleFind, hq, hlen]

/-- C10: a `metamcp__find` call whose search returns no results answers with the
plain "No tools found" message (no `isError`) and leaves the session's
discovered set untouched — the per-session replace happens only on a non-empty
result. -/
theorem find_empty_result_preserves_session
    (cache : List (String × List (String × ToolIndexEntry))) (sim : List ℚ → ℚ)
    (st : DiscoveredSessions) (sid ns q : String) (lim : Option Int) (hq : q ≠ "")
    (hempty : DiscoveryService.search cache ns sim (effectiveFindLimit lim) (mkRat 3 10) = []) :
    handleFind cache sim st sid ns ⟨some q, lim⟩ = (FindResult.noToolsFound q, st) ∧
    (FindResult.noToolsFound q).isError = false := by
  constructor
  · simp [handleFind, hq, hempty]
  · rfl

/-- Witness for C10: an un-indexed namespace; the prior discovery `old__tool`
survives the empty find. -/
theorem find_empty_result_preserves_session_witness :
    ("q" : String) ≠ "" ∧
    DiscoveryService.search [] "ns1" simW (effectiveFindLimit none) (mkRat 3 10) = [] ∧
    handleFind [] simW [("sess1", [("ns1", ["old__tool"])])] "sess1" "ns1"
        ⟨some "q", none⟩ =
      (FindResult.noToolsFound "q", [("sess1", [("ns1", ["old__tool"])])]) :=
  ⟨by decide, rfl,
    (find_empty_result_preserves_session [] simW
      [("sess1", [("ns1", ["old__tool"])])] "sess1" "ns1" "q" none (by decide) rfl).1⟩

/-- C3 counterexample: the claim says the find limit is clamped into `[1, 20]`
(so an effective limit of at least 1), but `Math.min(args?.limit ?? 5, 20)` has
no lower clamp: a supplied limit of 0 stays 0, and the same call that finds a
tool with limit 1 returns "No tools found" with limit 0. -/
theorem find_limit_not_floored_cex :
    effectiveFindLimit (some 0) = 0 ∧
    ¬ (1 ≤ effectiveFindLimit (some 0)) ∧
    (handleFind cacheW simW [] "sess1" "ns1" ⟨some "q", some 0⟩).1 =
      FindResult.noToolsFound "q" ∧
    (handleFind cacheW simW [] "sess1" "ns1" ⟨some "q", some 1⟩).1 ≠
      FindResult.noToolsFound "q" := by
  refine ⟨by decide, by decide, by decide, by decide⟩

/-- C3 amended: the `metamcp__find` limit is capped above at 20 and defaults to
5 when absent, but no lower bound is applied (`min(limit, 20)`); in particular a
supplied limit of 0 makes the search return nothing, so the call answers
"No tools found" and leaves the session unchanged. -/
theorem find_limit_cap_spec :
    (∀ a : Option Int, effectiveFindLimit a ≤ 20) ∧
    effectiveFindLimit none = 5 ∧
    (∀ l : Int, effectiveFindLimit (some l) = min l 20) ∧
    ∀ (cache : List (String × List (String × ToolIndexEntry))) (sim : List ℚ → ℚ)
      (st : DiscoveredSessions) (sid ns q : String), q ≠ "" →
      handleFind cache sim st sid ns ⟨some q, some 0⟩ = (FindResult.noToolsFound q, st) := by
  refine ⟨?_, rfl, fun l => rfl, ?_⟩
  · intro a
    cases a with
    | none => decide
    | some l => exact min_le_right l 20
  · intro cache sim st sid ns q hq
    have h0 : DiscoveryService.search cache ns sim (effectiveFindLimit (some 0))
        (mkRat 3 10) = [] := by
      have he : effectiveFindLimit (some 0) = 0 := by decide
      rw [he]
      simp only [DiscoveryService.search]
      cases alookup ns cache with
      | none => rfl
      | some m =>
        by_cases h : m.length = 0
        · simp [h]
        · simp [h, jsSliceTo]
    exact (find_empty_result_preserves_session cache sim st sid ns q (some 0) hq h0).1

/-- Witness for the amended C3 at a concrete indexed namespace and a session
holding a stale discovery. -/
theorem find_limit_cap_spec_witness :
    ("q" : String) ≠ "" ∧
    handleFind cacheW simW [("sess1", [("ns1", ["stale__x"])])] "sess1" "ns1"
        ⟨some "q", some 0⟩ =
      (FindResult.noToolsFound "q", [("sess1", [("ns1", ["stale__x"])])]) :=
  ⟨by decide,
    find_limit_cap_spec.2.2.2 cacheW simW [("sess1", [("ns1", ["stale__x"])])]
      "sess1" "ns1" "q" (by decide)⟩

/-- C8: a successful `metamcp__find` REPLACES the session's discovered set with
exactly the returned tool names, independently of any prior content; two
successive successful finds leave the second call's names; and the next
list-tools shows the synthetic tools, the pinned tools, and exactly those
discovered tools. -/
theorem find_replace_semantics
    (cache : List (String × List (String × ToolIndexEntry))) (sim : List ℚ → ℚ)
    (sid ns q : String) (lim : Option Int) (names : List String) (hq : q ≠ "")
    (hnames : names = (DiscoveryService.search cache ns sim (effectiveFindLimit lim)
      (mkRat 3 10)).map (fun r => r.tool.name))
    (hne : DiscoveryService.search cache ns sim (effectiveFindLimit lim) (mkRat 3 10) ≠ []) :
    (∀ st : DiscoveredSessions,
      DiscoveredToolsSessionManager.getDiscoveredToolNames
        ((handleFind cache sim st sid ns ⟨some q, lim⟩).2) sid ns = jsSetOf names) ∧
    (∀ x, x ∈ jsSetOf names ↔ x ∈ names) ∧
    (∀ (st : DiscoveredSessions) (cache1 : List (String × List (String × ToolIndexEntry)))
      (sim1 : List ℚ → ℚ) (args1 : FindArgs),
      DiscoveredToolsSessionManager.getDiscoveredToolNames
        ((handleFind cache sim ((handleFind cache1 sim1 st sid ns args1).2) sid ns
          ⟨some q, lim⟩).2) sid ns = jsSetOf names) ∧
    (∀ (st : DiscoveredSessions) (resp pinned : List String),
      (∀ x ∈ names, x ∈ resp) →
      ∀ x, x ∈ smartDiscoveryListToolNames resp pinned
          ((handleFind cache sim st sid ns ⟨some q, lim⟩).2) sid ns ↔
        (x = "metamcp__ask" ∨ x = "metamcp__find" ∨ (x ∈ resp ∧ x ∈ pinned) ∨
          x ∈ names)) := by
  have hone : ∀ st : DiscoveredSessions,
      DiscoveredToolsSessionManager.getDiscoveredToolNames
        ((handleFind cache sim st sid ns ⟨some q, lim⟩).2) sid ns = jsSetOf names := by
    intro st
    rw [handleFind_found cache sim st sid ns q lim hq hne, hnames]
    exact getDiscovered_setTools st sid ns _
  refine ⟨hone, fun x => mem_jsSetOf, fun st cache1 sim1 args1 => hone _, ?_⟩
  intro st resp pinned hsub x
  have hd := hone st
  have hx := fun h => hsub x h
  simp only [smartDiscoveryListToolNames, hd, mem_jsSetOf, List.mem_append,
    List.mem_filter, List.mem_cons, List.not_mem_nil, or_false, decide_eq_true_eq]
  tauto

/-- Witness for C8 at a two-tool index: the stale discovery `stale__x` is wiped
and exactly `s__t, s__u` remain. -/
theorem find_replace_semantics_witness :
    ("q" : String) ≠ "" ∧
    (DiscoveryService.search cacheW2 "ns1" simW2 (effectiveFindLimit none) (mkRat 3 10) ≠ []) ∧
    DiscoveredToolsSessionManager.getDiscoveredToolNames
      ((handleFind cacheW2 simW2 [("sess1", [("ns1", ["stale__x"])])] "sess1" "ns1"
        ⟨some "q", none⟩).2) "sess1" "ns1" = jsSetOf ["s__t", "s__u"] :=
  ⟨by decide, by decide,
    (find_replace_semantics cacheW2 simW2 "sess1" "ns1" "q" none ["s__t", "s__u"]
      (by decide) (by decide) (by decide)).1 [("sess1", [("ns1", ["stale__x"])])]⟩

/-! ## Lemmas and claim theorems: Ask-Agent orchestrator -/

/-- C1: when the pre-check total exceeds the 200 000-token budget on an enabled
agent, `run` answers with the overflow message, reports the per-part breakdown
in `tokenUsage`, and issues zero LLM calls, zero executor calls and zero
expose calls (no tools executed, none exposed). -/
theorem askAgent_budget_overflow (mto : Option Nat) (o : AskAgentOracle)
    (ctx : AskAgentContext) (cfg : AskAgentConfig) (opts : AskAgentRunOptions)
    (he : cfg.enabled = true)
    (hov : 200000 < askTokenTotal (askTokenParts o ctx cfg opts)) :
    AskAgent.run mto o ctx cfg opts =
      (⟨s!"Token budget exceeded before execution: {askTokenTotal (askTokenParts o ctx cfg opts)}/200000. Reduce prompt/docs/tools context.",
        [], [], [], [],
        "Reduce the agent context (prompt/docs) or lower discovery/tool payload size, then retry.",
        some ⟨cfg.model, 200000, askTokenTotal (askTokenParts o ctx cfg opts),
          askTokenParts o ctx cfg opts⟩⟩,
       ⟨0, [], []⟩) := by
  simp [AskAgent.run, he, hov]

/-- Witness for C1: a tokenizer charging 50 000 tokens per part trips the
budget; the run performs no LLM, executor or expose calls. -/
theorem askAgent_budget_overflow_witness :
    cfgOpenW.enabled = true ∧
    200000 < askTokenTotal (askTokenParts oracleOverflowW ctxW cfgOpenW optsW) ∧
    (AskAgent.run none oracleOverflowW ctxW cfgOpenW optsW).2 =
      (⟨0, [], []⟩ : AskRunTrace) ∧
    (AskAgent.run none oracleOverflowW ctxW cfgOpenW optsW).1.toolCallsExecuted = [] ∧
    (AskAgent.run none oracleOverflowW ctxW cfgOpenW optsW).1.exposedTools = [] := by
  have h := askAgent_budget_overflow none oracleOverflowW ctxW cfgOpenW optsW rfl
    (by decide)
  refine ⟨rfl, by decide, ?_, ?_, ?_⟩ <;> rw [h]

theorem askIsAllowed_eq_true_iff (denied allowed : List String) (n : String) :
    askIsAllowed denied allowed n = true ↔
      (n ∉ denied ∧ (allowed = [] ∨ n ∈ allowed)) := by
  unfold askIsAllowed
  by_cases h1 : n ∈ denied
  · simp [h1]
  · by_cases h2 : allowed.length = 0
    · simp [h1, h2, List.length_eq_zero.mp h2]
    · have h3 : allowed ≠ [] := by
        intro hh
        exact h2 (by simp [hh])
      simp [h1, h2, h3]

theorem askExposeList_eq_spec (denied allowed : List String) (exposeLimitRaw : Int)
    (plan : AskAgentPlan) (report : AskAgentReport) :
    askExposeList (askIsAllowed denied allowed) (clampNonneg exposeLimitRaw 50)
        plan report =
      askExposeSpecList report plan denied allowed exposeLimitRaw := by
  have hnn : ¬ (clampNonneg exposeLimitRaw 50) < 0 :=
    not_lt.mpr (le_max_left 0 _)
  unfold askExposeList askExposeSpecList
  have hbase : (match report.exposeTools with
      | some l => l
      | none => plan.exposeTools.getD []) =
      report.exposeTools.getD (plan.exposeTools.getD []) := by
    cases report.exposeTools <;> rfl
  rw [hbase]
  simp only [jsSliceTo, hnn, if_false]
  rw [List.filter_filter, List.filter_filter]
  congr 1
  apply List.filter_congr
  intro n _
  rw [Bool.eq_iff_iff]
  simp only [Bool.and_eq_true, decide_eq_true_eq, askIsAllowed_eq_true_iff]
  tauto

/-- C2 counterexample: with the report exposing `a__x` and the plan exposing
`b__y` (both allowed, limit 50), the list handed to `setExposedTools` is
`[a__x]` alone — `b__y` from the plan is dropped because the code takes
`report.exposeTools ?? plan.exposeTools`, not their union. -/
theorem askAgent_expose_union_cex :
    (AskAgent.run none oracleExposeW ctxW cfgOpenW optsW).2.exposeCalls =
      [("sess1", "ns1", ["a__x"])] ∧
    "b__y" ∈ oracleExposeW.plan.exposeTools.getD [] ∧
    askIsAllowed cfgOpenW.deniedTools cfgOpenW.allowedTools "b__y" = true ∧
    ("b__y" : String) ∉ (AskAgent.run none oracleExposeW ctxW cfgOpenW optsW).1.exposedTools ∧
    (AskAgent.run none oracleExposeW ctxW cfgOpenW optsW).1.exposedTools.length + 1 ≤
      (clampNonneg optsW.exposeLimit 50).toNat := by
  refine ⟨by decide, by decide, by decide, by decide, by decide⟩

/-- C2 amended: the list passed to `setExposedTools` is the REPORT's
`exposeTools` when that field is present, otherwise the PLAN's (not their
union), with empty names, synthetic names and disallowed names removed and the
first `min(exposeLimit, 50)` (0-floored) kept; `setExposedTools` is invoked
exactly when that list is non-empty. -/
theorem askAgent_expose_fallback_spec (mto : Option Nat) (o : AskAgentOracle)
    (ctx : AskAgentContext) (cfg : AskAgentConfig) (opts : AskAgentRunOptions)
    (he : cfg.enabled = true)
    (hok : askTokenTotal (askTokenParts o ctx cfg opts) ≤ 200000) :
    (AskAgent.run mto o ctx cfg opts).1.exposedTools =
      askExposeSpecList o.report o.plan cfg.deniedTools cfg.allowedTools
        opts.exposeLimit ∧
    (AskAgent.run mto o ctx cfg opts).2.exposeCalls =
      (if askExposeSpecList o.report o.plan cfg.deniedTools cfg.allowedTools
          opts.exposeLimit = [] then []
       else [(ctx.sessionId, ctx.namespaceUuid,
         askExposeSpecList o.report o.plan cfg.deniedTools cfg.allowedTools
           opts.exposeLimit)]) := by
  have hnot : ¬ 200000 < askTokenTotal (askTokenParts o ctx cfg opts) := not_lt.mpr hok
  have hlist := askExposeList_eq_spec cfg.deniedTools cfg.allowedTools
    opts.exposeLimit o.plan o.report
  constructor
  · simp [AskAgent.run, he, hnot, hlist]
  · simp only [AskAgent.run, he, Bool.true_eq_false, if_false, hnot, hlist]
    rcases hspec : askExposeSpecList o.report o.plan cfg.deniedTools
      cfg.allowedTools opts.exposeLimit with _ | ⟨a, rest⟩ <;> simp [hspec]

/-- Witness for the amended C2 at the concrete fallback input. -/
theorem askAgent_expose_fallback_spec_witness :
    cfgOpenW.enabled = true ∧
    askTokenTotal (askTokenParts oracleExposeW ctxW cfgOpenW optsW) ≤ 200000 ∧
    (AskAgent.run none oracleExposeW ctxW cfgOpenW optsW).1.exposedTools =
      askExposeSpecList oracleExposeW.report oracleExposeW.plan [] [] 50 :=
  ⟨rfl, by decide,
    (askAgent_expose_fallback_spec none oracleExposeW ctxW cfgOpenW optsW rfl
      (by decide)).1⟩

theorem askExecuteLoop_spec (isAllowed : String → Bool) (maxChars : Nat)
    (execTool : String → Option String → Except String String)
    (l : List AskAgentPlanToolCall) :
    (askExecuteLoop isAllowed maxChars execTool l).1.length = l.length ∧
    (askExecuteLoop isAllowed maxChars execTool l).2 =
      (l.filter (askCallExecutes isAllowed)).map (fun tc => (tc.name, tc.arguments)) ∧
    ∀ tc ∈ l, askCallExecutes isAllowed tc = false →
      (⟨tc.name, false, some (refuseReason tc.name), none, none⟩ :
          AskAgentToolCallExecuted) ∈
        (askExecuteLoop isAllowed maxChars execTool l).1 := by
  induction l with
  | nil => exact ⟨rfl, rfl, by simp⟩
  | cons tc rest ih =>
    by_cases hsyn : tc.name = "metamcp__ask" ∨ tc.name = "metamcp__find"
    · refine ⟨?_, ?_, ?_⟩
      · simp [askExecuteLoop, hsyn, ih.1]
      · simp [askExecuteLoop, hsyn, askCallExecutes, ih.2.1]
      · intro tc2 htc2 hbad
        rcases List.mem_cons.1 htc2 with h | h
        · subst h
          simp [askExecuteLoop, hsyn, refuseReason]
        · have := ih.2.2 tc2 h hbad
          simp only [askExecuteLoop, hsyn, if_true]
          exact List.mem_cons_of_mem _ this
    · by_cases hall : isAllowed tc.name = true
      · have hgood : askCallExecutes isAllowed tc = true := by
          simp [askCallExecutes, hsyn, hall]
        refine ⟨?_, ?_, ?_⟩
        · rcases hex : execTool tc.name tc.arguments with msg | sres <;>
            simp [askExecuteLoop, hsyn, hall, hex, ih.1]
        · rcases hex : execTool tc.name tc.arguments with msg | sres <;>
            simp [askExecuteLoop, hsyn, hall, hex, hgood, ih.2.1]
        · intro tc2 htc2 hbad
          rcases List.mem_cons.1 htc2 with h | h
          · subst h
            rw [hgood] at hbad
            cases hbad
          · have := ih.2.2 tc2 h hbad
            rcases hex : execTool tc.name tc.arguments with msg | sres <;>
              simp only [askExecuteLoop, hsyn, if_false, hall, hex] <;>
              exact List.mem_cons_of_mem _ this
      · have hall' : isAllowed tc.name = false := by
          cases h : isAllowed tc.name
          · rfl
          · exact absurd h hall
        refine ⟨?_, ?_, ?_⟩
        · simp [askExecuteLoop, hsyn, hall', ih.1]
        · simp [askExecuteLoop, hsyn, hall', askCallExecutes, ih.2.1]
        · intro tc2 htc2 hbad
          rcases List.mem_cons.1 htc2 with h | h
          · subst h
            simp [askExecuteLoop, hsyn, hall', refuseReason]
          · have := ih.2.2 tc2 h hbad
            simp only [askExecuteLoop, hsyn, if_false, hall']
            exact List.mem_cons_of_mem _ this

/-- C4: in the execute step, every proposed call with a synthetic name or a
disallowed name is never sent to the upstream executor; it is recorded in
`toolCallsExecuted` with `ok: false` and the corresponding reason, and the loop
processes every requested call (no refusal aborts the run). -/
theorem askAgent_policy_refusals (mto : Option Nat) (o : AskAgentOracle)
    (ctx : AskAgentContext) (cfg : AskAgentConfig) (opts : AskAgentRunOptions)
    (he : cfg.enabled = true)
    (hok : askTokenTotal (askTokenParts o ctx cfg opts) ≤ 200000) :
    (AskAgent.run mto o ctx cfg opts).1.toolCallsExecuted.length =
      (askRequestedCalls o.plan (clampNonneg opts.maxToolCalls 20)).length ∧
    (AskAgent.run mto o ctx cfg opts).2.execCalls =
      ((askRequestedCalls o.plan (clampNonneg opts.maxToolCalls 20)).filter
        (askCallExecutes (askIsAllowed cfg.deniedTools cfg.allowedTools))).map
        (fun tc => (tc.name, tc.arguments)) ∧
    ∀ tc ∈ askRequestedCalls o.plan (clampNonneg opts.maxToolCalls 20),
      askCallExecutes (askIsAllowed cfg.deniedTools cfg.allowedTools) tc = false →
      (⟨tc.name, false, some (refuseReason tc.name), none, none⟩ :
          AskAgentToolCallExecuted) ∈
        (AskAgent.run mto o ctx cfg opts).1.toolCallsExecuted := by
  have hnot : ¬ 200000 < askTokenTotal (askTokenParts o ctx cfg opts) := not_lt.mpr hok
  have hloop := askExecuteLoop_spec (askIsAllowed cfg.deniedTools cfg.allowedTools)
    (mto.getD 6000) o.execTool
    (askRequestedCalls o.plan (clampNonneg opts.maxToolCalls 20))
  refine ⟨?_, ?_, ?_⟩
  · simpa [AskAgent.run, he, hnot] using hloop.1
  · simpa [AskAgent.run, he, hnot] using hloop.2.1
  · intro tc htc hbad
    have := hloop.2.2 tc htc hbad
    simpa [AskAgent.run, he, hnot] using this

/-- Witness for C4: a plan proposing `metamcp__find`, the denied `s__w` and the
allowed `s__t`; only `s__t` reaches the executor, the refusals are recorded,
and all three proposals are processed. -/
theorem askAgent_policy_refusals_witness :
    cfgDenyW.enabled = true ∧
    askTokenTotal (askTokenParts oracleExecW ctxW cfgDenyW optsW) ≤ 200000 ∧
    (AskAgent.run none oracleExecW ctxW cfgDenyW optsW).2.execCalls =
      [("s__t", some "{}")] ∧
    (AskAgent.run none oracleExecW ctxW cfgDenyW optsW).1.toolCallsExecuted.length = 3 ∧
    (⟨"metamcp__find", false, some "Refusing recursive call to synthetic tool",
        none, none⟩ : AskAgentToolCallExecuted) ∈
      (AskAgent.run none oracleExecW ctxW cfgDenyW optsW).1.toolCallsExecuted ∧
    (⟨"s__w", false, some "Tool not allowed by agent configuration", none, none⟩ :
        AskAgentToolCallExecuted) ∈
      (AskAgent.run none oracleExecW ctxW cfgDenyW optsW).1.toolCallsExecuted := by
  have h := askAgent_policy_refusals none oracleExecW ctxW cfgDenyW optsW rfl (by decide)
  refine ⟨rfl, by decide, ?_, ?_, ?_, ?_⟩
  · rw [h.2.1]
    decide
  · rw [h.1]
    decide
  · exact h.2.2 ⟨"metamcp__find", none, none⟩ (by decide) (by decide)
  · exact h.2.2 ⟨"s__w", none, none⟩ (by decide) (by decide)

/-! ## Claim theorems: document upload budget -/

/-- C6: when the existing documents' token counts plus the new document's token
count exceed 200 000, `uploadAgentDocument` fails with the budget-exceeded
message and the stored document set is unchanged (no row inserted). -/
theorem uploadAgentDocument_budget (count : String → String → Nat)
    (agent : UploadAgent) (owner userId : String) (existingDocs : List AgentDoc)
    (filename : String) (mime : Option String) (content : String) (t : Nat)
    (howner : owner = userId)
    (htot : t = (existingDocs.map (fun d => d.token_count)).sum +
      count (jsOrString agent.model "gpt-4o-mini") content)
    (hover : 200000 < t) :
    uploadAgentDocument count (some agent) (some ⟨some owner⟩) userId existingDocs
        filename mime content =
      (⟨false, s!"Token budget exceeded for agent docs: {t}/200000 tokens"⟩,
        existingDocs) := by
  subst howner
  subst htot
  simp [uploadAgentDocument, hover]

/-- Witness for C6: an empty document set plus a 200 001-token upload trips the
budget and inserts nothing. -/
theorem uploadAgentDocument_budget_witness :
    ("u" : String) = "u" ∧
    200000 < (([] : List AgentDoc).map (fun d => d.token_count)).sum +
      (fun (_ : String) (_ : String) => 200001) (jsOrString none "gpt-4o-mini") "body" ∧
    (uploadAgentDocument (fun _ _ => 200001) (some ⟨"ns1", none⟩) (some ⟨some "u"⟩)
        "u" [] "f.txt" none "body").2 = [] ∧
    (uploadAgentDocument (fun _ _ => 200001) (some ⟨"ns1", none⟩) (some ⟨some "u"⟩)
        "u" [] "f.txt" none "body").1.success = false := by
  have h := uploadAgentDocument_budget (fun _ _ => 200001) ⟨"ns1", none⟩ "u" "u" []
    "f.txt" none "body" 200001 rfl (by decide) (by decide)
  refine ⟨rfl, by decide, ?_, ?_⟩ <;> rw [h]

/-! ## Claim theorems: refreshTools invalidations -/

/-- C5 counterexample: a successful `refreshTools` (one tool, one server)
invalidates the idle MetaMCP session and the OpenAPI sessions but does NOT
clear the namespace's tool-override cache, contradicting the claim that the
override cache is cleared. -/
theorem refreshTools_no_override_clear_cex :
    (refreshTools refreshEnvW "ns1" refreshToolsW "u").1.success = true ∧
    (refreshTools refreshEnvW "ns1" refreshToolsW "u").1.toolsCreated = some 1 ∧
    (refreshTools refreshEnvW "ns1" refreshToolsW "u").2 =
      [PoolEffect.invalidateIdleServer "ns1",
       PoolEffect.invalidateOpenApiSessions ["ns1"]] ∧
    PoolEffect.clearOverrideCache "ns1" ∉
      (refreshTools refreshEnvW "ns1" refreshToolsW "u").2 := by
  refine ⟨by decide, by decide, by decide, by decide⟩

/-- C5 amended: after a successful `refreshTools` that upserted at least one
tool group, the namespace's idle MetaMCP session and its OpenAPI sessions are
invalidated (in that order), but the tool-override cache is NOT cleared; no
code path of `refreshTools` clears it, and the early success paths (empty or
fully-skipped payload) issue no invalidation at all. -/
theorem refreshTools_invalidations_spec (env : RefreshEnv) (namespaceUuid : String)
    (tools : List RefreshToolInputItem) (userId : String) :
    (∀ e ∈ (refreshTools env namespaceUuid tools userId).2,
      ∀ ns, e ≠ PoolEffect.clearOverrideCache ns) ∧
    ((refreshTools env namespaceUuid tools userId).2 ≠ [] →
      (refreshTools env namespaceUuid tools userId).2 =
        [PoolEffect.invalidateIdleServer namespaceUuid,
         PoolEffect.invalidateOpenApiSessions [namespaceUuid]] ∧
      (refreshTools env namespaceUuid tools userId).1.success = true) ∧
    (0 < ((refreshTools env namespaceUuid tools userId).1.toolsCreated).getD 0 →
      (refreshTools env namespaceUuid tools userId).2 =
        [PoolEffect.invalidateIdleServer namespaceUuid,
         PoolEffect.invalidateOpenApiSessions [namespaceUuid]]) := by
  rcases hns : env.namespaceUserId with _ | ownerId
  · simp [refreshTools, hns]
  · simp only [refreshTools, hns]
    clear hns
    by_cases hown : (match ownerId with
      | some o => decide (o ≠ userId)
      | none => false) = true
    · rw [if_pos hown]
      simp
    · rw [if_neg hown]
      by_cases hlen : tools.length = 0
      · rw [if_pos hlen]
        simp
      · rw [if_neg hlen]
        by_cases hparse : (refreshParseTools env.overrides tools).length = 0
        · rw [if_pos hparse]
          simp
        · rw [if_neg hparse]
          by_cases hgrp : (refreshGroups env.servers
              (refreshParseTools env.overrides tools)).length = 0
          · rw [if_pos hgrp]
            simp
          · rw [if_neg hgrp]
            refine ⟨?_, ?_, ?_⟩
            · intro e he ns
              rcases List.mem_cons.1 he with h | h
              · subst h
                intro hc
                cases hc
              · rcases List.mem_cons.1 h with h | h
                · subst h
                  intro hc
                  cases hc
                · cases h
            · intro _
              exact ⟨rfl, rfl⟩
            · intro _
              rfl

/-- Witness for the amended C5 at the concrete successful refresh. -/
theorem refreshTools_invalidations_spec_witness :
    (refreshTools refreshEnvW "ns1" refreshToolsW "u").2 ≠ [] ∧
    (refreshTools refreshEnvW "ns1" refreshToolsW "u").2 =
      [PoolEffect.invalidateIdleServer "ns1",
       PoolEffect.invalidateOpenApiSessions ["ns1"]] :=
  ⟨by decide,
    ((refreshTools_invalidations_spec refreshEnvW "ns1" refreshToolsW "u").2.1
      (by decide)).1⟩

/-! ## Lemmas: live-connections counting -/

theorem countEN_append_single (conns : List (String × ConnectionInfo))
    (x : String × ConnectionInfo) (e n : String) :
    countEN (conns ++ [x]) e n = countEN conns e n +
      (if x.2.endpointName = e ∧ x.2.namespaceUuid = n then 1 else 0) := by
  unfold countEN
  rw [List.filter_append, List.length_append]
  congr 1
  by_cases h : x.2.endpointName = e ∧ x.2.namespaceUuid = n
  · simp [h]
  · simp [h]

theorem countT_append_single (conns : List (String × ConnectionInfo))
    (x : String × ConnectionInfo) (t : Transport) :
    countT (conns ++ [x]) t = countT conns t +
      (if x.2.transport = t then 1 else 0) := by
  unfold countT
  rw [List.filter_append, List.length_append]
  congr 1
  by_cases h : x.2.transport = t
  · simp [h]
  · simp [h]

theorem countEN_middle (l₁ l₂ : List (String × ConnectionInfo))
    (x : String × ConnectionInfo) (e n : String) :
    countEN (l₁ ++ x :: l₂) e n = countEN (l₁ ++ l₂) e n +
      (if x.2.endpointName = e ∧ x.2.namespaceUuid = n then 1 else 0) := by
  unfold countEN
  rw [List.filter_append, List.filter_cons, List.filter_append, List.length_append,
    List.length_append]
  by_cases h : x.2.endpointName = e ∧ x.2.namespaceUuid = n
  · rw [if_pos (by simpa using h), if_pos h, List.length_cons]
    omega
  · rw [if_neg (by simpa using h), if_neg h]
    omega

theorem countT_middle (l₁ l₂ : List (String × ConnectionInfo))
    (x : String × ConnectionInfo) (t : Transport) :
    countT (l₁ ++ x :: l₂) t = countT (l₁ ++ l₂) t +
      (if x.2.transport = t then 1 else 0) := by
  unfold countT
  rw [List.filter_append, List.filter_cons, List.filter_append, List.length_append,
    List.length_append]
  by_cases h : x.2.transport = t
  · rw [if_pos (by simpa using h), if_pos h, List.length_cons]
    omega
  · rw [if_neg (by simpa using h), if_neg h]
    omega

theorem countEN_cons (q : String × ConnectionInfo) (rest : List (String × ConnectionInfo))
    (e n : String) :
    countEN (q :: rest) e n = countEN rest e n +
      (if q.2.endpointName = e ∧ q.2.namespaceUuid = n then 1 else 0) := by
  have h := countEN_middle [] rest q e n
  simpa using h

theorem countT_cons (q : String × ConnectionInfo)
    (rest : List (String × ConnectionInfo)) (t : Transport) :
    countT (q :: rest) t = countT rest t + (if q.2.transport = t then 1 else 0) := by
  have h := countT_middle [] rest q t
  simpa using h

theorem countT_partition (conns : List (String × ConnectionInfo)) :
    countT conns .SSE + countT conns .StreamableHTTP = conns.length := by
  induction conns with
  | nil => rfl
  | cons q rest ih =>
    rw [countT_cons, countT_cons, List.length_cons]
    rcases ht : q.2.transport with _ | _ <;> simp [ht] <;> omega

theorem countEN_pos_of_mem {conns : List (String × ConnectionInfo)}
    {q : String × ConnectionInfo} (hq : q ∈ conns) (e n : String)
    (he : q.2.endpointName = e) (hn : q.2.namespaceUuid = n) :
    0 < countEN conns e n := by
  unfold countEN
  rw [List.length_pos]
  intro hnil
  have : q ∈ conns.filter (fun p => decide (p.2.endpointName = e ∧ p.2.namespaceUuid = n)) := by
    rw [List.mem_filter]
    exact ⟨hq, by simp [he, hn]⟩
  rw [hnil] at this
  cases this

theorem exists_mem_of_countEN_pos {conns : List (String × ConnectionInfo)}
    {e n : String} (h : 0 < countEN conns e n) :
    ∃ q ∈ conns, q.2.endpointName = e ∧ q.2.namespaceUuid = n := by
  unfold countEN at h
  rw [List.length_pos] at h
  obtain ⟨q, hq⟩ := List.exists_mem_of_ne_nil _ h
  rw [List.mem_filter] at hq
  refine ⟨q, hq.1, ?_⟩
  simpa using hq.2

theorem sum_map_add {α : Type} (l : List α) (f g : α → Int) :
    (l.map (fun x => f x + g x)).sum = (l.map f).sum + (l.map g).sum := by
  induction l with
  | nil => simp
  | cons x xs ih =>
    simp only [List.map_cons, List.sum_cons, ih]
    omega

theorem sum_indicator_eq_zero {α : Type} [DecidableEq α] (l : List α) (x : α)
    (hx : x ∉ l) : (l.map (fun p => if x = p then (1 : Int) else 0)).sum = 0 := by
  induction l with
  | nil => simp
  | cons y ys ih =>
    have hxy : x ≠ y := fun h => hx (h ▸ List.mem_cons_self y ys)
    have hys : x ∉ ys := fun h => hx (List.mem_cons_of_mem y h)
    simp [hxy, ih hys]

theorem sum_indicator_eq_one {α : Type} [DecidableEq α] (l : List α) (x : α)
    (hnd : l.Nodup) (hx : x ∈ l) :
    (l.map (fun p => if x = p then (1 : Int) else 0)).sum = 1 := by
  induction l with
  | nil => cases hx
  | cons y ys ih =>
    rw [List.nodup_cons] at hnd
    rcases List.mem_cons.1 hx with h | h
    · subst h
      simp [sum_indicator_eq_zero ys x hnd.1]
    · have hxy : x ≠ y := by
        intro hh
        subst hh
        exact hnd.1 h
      simp [hxy, ih hnd.2 h]

theorem sum_countEN_of_cover (pairs : List (String × String))
    (conns : List (String × ConnectionInfo)) (hnd : pairs.Nodup)
    (hcov : ∀ q ∈ conns, (q.2.endpointName, q.2.namespaceUuid) ∈ pairs) :
    (pairs.map (fun pr => (countEN conns pr.1 pr.2 : Int))).sum =
      (conns.length : Int) := by
  induction conns with
  | nil =>
    apply List.sum_eq_zero
    intro x hx
    rw [List.mem_map] at hx
    obtain ⟨pr, _, hpr⟩ := hx
    rw [← hpr]
    simp [countEN]
  | cons q rest ih =>
    have hmap : pairs.map (fun pr => (countEN (q :: rest) pr.1 pr.2 : Int)) =
        pairs.map (fun pr => (countEN rest pr.1 pr.2 : Int) +
          (if (q.2.endpointName, q.2.namespaceUuid) = pr then 1 else 0)) := by
      apply List.map_congr_left
      intro pr _
      rw [countEN_cons]
      push_cast
      congr 1
      by_cases h : (q.2.endpointName, q.2.namespaceUuid) = pr
      · have h1 : q.2.endpointName = pr.1 := by rw [← h]
        have h2 : q.2.namespaceUuid = pr.2 := by rw [← h]
        simp [h, h1, h2]
      · have h2 : ¬ (q.2.endpointName = pr.1 ∧ q.2.namespaceUuid = pr.2) := by
          intro hh
          exact h (Prod.ext hh.1 hh.2)
        simp [h, h2]
    rw [hmap, sum_map_add]
    rw [ih (fun p hp => hcov p (List.mem_cons_of_mem q hp))]
    rw [sum_indicator_eq_one pairs _ hnd (hcov q (List.mem_cons_self q rest))]
    simp [Int.add_comm]

theorem pairsOf_cons (p : String × List (String × Int))
    (rest : List (String × List (String × Int))) :
    pairsOf (p :: rest) = p.2.map (fun q => (p.1, q.1)) ++ pairsOf rest := by
  simp [pairsOf]

theorem mem_pairsOf_fst {ec : List (String × List (String × Int))}
    {pr : String × String} (h : pr ∈ pairsOf ec) : pr.1 ∈ ec.map Prod.fst := by
  induction ec with
  | nil => simp [pairsOf] at h
  | cons p rest ih =>
    rw [pairsOf_cons, List.mem_append] at h
    rcases h with h | h
    · rw [List.mem_map] at h
      obtain ⟨q, _, hq⟩ := h
      rw [← hq]
      simp
    · simp only [List.map_cons, List.mem_cons]
      exact Or.inr (ih h)

theorem pairsOf_nodup {ec : List (String × List (String × Int))}
    (houter : (ec.map Prod.fst).Nodup)
    (hinner : ∀ p ∈ ec, (p.2.map Prod.fst).Nodup) : (pairsOf ec).Nodup := by
  induction ec with
  | nil => simp [pairsOf]
  | cons p rest ih =>
    rw [List.map_cons, List.nodup_cons] at houter
    rw [pairsOf_cons]
    refine List.nodup_append.mpr ⟨?_, ?_, ?_⟩
    · have hmm : p.2.map (fun q => (p.1, q.1)) =
          (p.2.map Prod.fst).map (fun n => (p.1, n)) := by
        rw [List.map_map]
        rfl
      rw [hmm]
      exact (hinner p (List.mem_cons_self p rest)).map
        (fun a b hab => by simpa using hab)
    · exact ih houter.2 (fun q hq => hinner q (List.mem_cons_of_mem p hq))
    · intro a ha hb
      rw [List.mem_map] at ha
      obtain ⟨q, _, hq⟩ := ha
      have hfst : a.1 = p.1 := by
        rw [← hq]
      have := mem_pairsOf_fst hb
      rw [hfst] at this
      exact houter.1 this

theorem mem_pairsOf_of_lookup {ec : List (String × List (String × Int))}
    {e n : String} {m : List (String × Int)} {c : Int}
    (hm : alookup e ec = some m) (hc : alookup n m = some c) :
    (e, n) ∈ pairsOf ec := by
  have h1 : (e, m) ∈ ec := alookup_mem hm
  have h2 : (n, c) ∈ m := alookup_mem hc
  unfold pairsOf
  rw [List.mem_flatMap]
  refine ⟨(e, m), h1, ?_⟩
  rw [List.mem_map]
  exact ⟨(n, c), h2, rfl⟩

theorem values_eq_countEN_list (ec : List (String × List (String × Int)))
    (conns : List (String × ConnectionInfo))
    (h : ∀ e m, (e, m) ∈ ec → ∀ n c, (n, c) ∈ m → c = (countEN conns e n : Int)) :
    ec.flatMap (fun p => p.2.map (fun q => q.2)) =
      (pairsOf ec).map (fun pr => (countEN conns pr.1 pr.2 : Int)) := by
  induction ec with
  | nil => simp [pairsOf]
  | cons p rest ih =>
    rw [pairsOf_cons, List.map_append, List.map_map]
    have hhead : (p.2.map (fun q => q.2)) =
        p.2.map ((fun pr => (countEN conns pr.1 pr.2 : Int)) ∘ (fun q => (p.1, q.1))) := by
      apply List.map_congr_left
      intro q hq
      exact h p.1 p.2 (List.mem_cons_self p rest) q.1 q.2 (by simpa using hq)
    have htail := ih (fun e m hm n c hc =>
      h e m (List.mem_cons_of_mem p hm) n c hc)
    simp only [List.flatMap_cons]
    rw [hhead, htail]

/-! ## Lemmas: tracker invariant preservation -/

theorem countEN_zero_of_no_entry {s : TrackerState} (hinv : TrackerInv s)
    {e n : String}
    (h : ∀ m, alookup e s.endpointCounts = some m → alookup n m = none) :
    countEN s.connections e n = 0 := by
  by_contra hne
  obtain ⟨q, hq, hqe, hqn⟩ := exists_mem_of_countEN_pos (Nat.pos_of_ne_zero hne)
  obtain ⟨m', hm', hsome⟩ := hinv.cover q hq
  rw [hqe] at hm'
  have := h m' hm'
  rw [hqn, this] at hsome
  cases hsome

theorem inv_add_aux (s : TrackerState) (hinv : TrackerInv s) (sid e n : String)
    (t : Transport) (_hnone : alookup sid s.connections = none) :
    TrackerInv (⟨s.connections ++ [(sid, ⟨e, n, t⟩)],
      aset e (aset n ((alookup n ((alookup e s.endpointCounts).getD [])).getD 0 + 1)
        ((alookup e s.endpointCounts).getD [])) s.endpointCounts,
      s.sseCount + (if t = .SSE then 1 else 0),
      s.shttpCount + (if t = .StreamableHTTP then 1 else 0)⟩ : TrackerState) := by
  set m0 : List (String × Int) := (alookup e s.endpointCounts).getD [] with hm0def
  set c0 : Int := (alookup n m0).getD 0 with hc0def
  have hm0nodup : (m0.map Prod.fst).Nodup := by
    rw [hm0def]
    rcases hE : alookup e s.endpointCounts with _ | m
    · simp
    · rw [Option.getD_some]
      exact hinv.innerNodup (e, m) (alookup_mem hE)
  have hc0val : c0 = (countEN s.connections e n : Int) := by
    rw [hc0def, hm0def]
    rcases hE : alookup e s.endpointCounts with _ | m
    · have hz : countEN s.connections e n = 0 :=
        countEN_zero_of_no_entry hinv (fun m hm => by rw [hE] at hm; cases hm)
      simp [alookup, hz]
    · rw [Option.getD_some]
      rcases hN : alookup n m with _ | c
      · have hz : countEN s.connections e n = 0 :=
          countEN_zero_of_no_entry hinv (fun m' hm' => by
            rw [hE] at hm'
            injection hm' with hm'
            rw [← hm']
            exact hN)
        simp [hN, hz]
      · rw [Option.getD_some]
        exact hinv.counts e m hE n c hN
  constructor
  · exact nodup_keys_aset e _ hinv.outerNodup
  · intro p hp
    rcases mem_aset hp with hpe | hold
    · rw [hpe]
      exact nodup_keys_aset n _ hm0nodup
    · exact hinv.innerNodup p hold
  · intro e' m' hm' n' c' hc'
    by_cases hee : e' = e
    · subst hee
      rw [alookup_aset_self] at hm'
      injection hm' with hm'
      rw [← hm'] at hc'
      by_cases hnn : n' = n
      · subst hnn
        rw [alookup_aset_self] at hc'
        injection hc' with hc'
        rw [← hc']
        rw [countEN_append_single]
        rw [if_pos ⟨rfl, rfl⟩]
        push_cast
        rw [hc0val]
      · rw [alookup_aset_ne _ _ hnn] at hc'
        have hcnt : c' = (countEN s.connections e' n' : Int) := by
          rw [hm0def] at hc'
          rcases hE : alookup e' s.endpointCounts with _ | m
          · rw [hE] at hc'
            simp [alookup] at hc'
          · rw [hE, Option.getD_some] at hc'
            exact hinv.counts e' m hE n' c' hc'
        rw [countEN_append_single, if_neg (fun h => hnn h.2.symm)]
        simpa using hcnt
    · rw [alookup_aset_ne _ _ hee] at hm'
      have hcnt := hinv.counts e' m' hm' n' c' hc'
      rw [countEN_append_single, if_neg (fun h => hee h.1.symm)]
      simpa using hcnt
  · intro q hq
    rcases List.mem_append.1 hq with hold | hnew
    · obtain ⟨m', hm', hsome⟩ := hinv.cover q hold
      by_cases hqe : q.2.endpointName = e
      · have hE : alookup e s.endpointCounts = some m' := by
          rw [← hqe]
          exact hm'
        have hm0eq : m0 = m' := by
          rw [hm0def, hE, Option.getD_some]
        refine ⟨aset n (c0 + 1) m0, by rw [hqe]; exact alookup_aset_self _ _ _, ?_⟩
        by_cases hqn : q.2.namespaceUuid = n
        · rw [hqn, alookup_aset_self]
          rfl
        · rw [alookup_aset_ne _ _ hqn, hm0eq]
          exact hsome
      · exact ⟨m', by rw [alookup_aset_ne _ _ hqe]; exact hm', hsome⟩
    · rw [List.mem_singleton] at hnew
      rw [hnew]
      refine ⟨aset n (c0 + 1) m0, alookup_aset_self _ _ _, ?_⟩
      rw [alookup_aset_self]
      rfl
  · dsimp only
    rw [countT_append_single]
    rcases t with _ | _
    · rw [if_pos rfl, if_pos rfl]
      push_cast
      rw [hinv.sse]
    · rw [if_neg (by simp), if_neg (by simp)]
      simpa using hinv.sse
  · dsimp only
    rw [countT_append_single]
    rcases t with _ | _
    · rw [if_neg (by simp), if_neg (by simp)]
      simpa using hinv.shttp
    · rw [if_pos rfl, if_pos rfl]
      push_cast
      rw [hinv.shttp]

theorem inv_add (s : TrackerState) (hinv : TrackerInv s) (sid e n : String)
    (t : Transport) : TrackerInv (addConnection s sid e n t) := by
  by_cases hdup : (alookup sid s.connections).isSome = true
  · have hs : addConnection s sid e n t = s := by
      simp [addConnection, hdup]
    rw [hs]
    exact hinv
  · have hnone : alookup sid s.connections = none := by
      cases h : alookup sid s.connections
      · rfl
      · rw [h] at hdup
        simp at hdup
    have haux := inv_add_aux s hinv sid e n t hnone
    have hs : addConnection s sid e n t = ⟨s.connections ++ [(sid, ⟨e, n, t⟩)],
        aset e (aset n ((alookup n ((alookup e s.endpointCounts).getD [])).getD 0 + 1)
          ((alookup e s.endpointCounts).getD [])) s.endpointCounts,
        s.sseCount + (if t = .SSE then 1 else 0),
        s.shttpCount + (if t = .StreamableHTTP then 1 else 0)⟩ := by
      rcases t with _ | _ <;> simp [addConnection, hdup]
    rw [hs]
    exact haux

theorem aset_ne_nil {β : Type} (k : String) (v : β) (l : List (String × β)) :
    aset k v l ≠ [] := by
  cases l with
  | nil => simp [aset]
  | cons p rest =>
    obtain ⟨k1, v1⟩ := p
    by_cases h : k1 = k <;> simp [aset, h]

theorem countEN_aerase_eq (s : TrackerState) {sid : String} {v : ConnectionInfo}
    (hv : alookup sid s.connections = some v) (e' n' : String) :
    countEN s.connections e' n' = countEN (aerase sid s.connections) e' n' +
      (if v.endpointName = e' ∧ v.namespaceUuid = n' then 1 else 0) := by
  obtain ⟨l₁, l₂, hdecomp, herase⟩ := aerase_decomp hv
  rw [herase, hdecomp]
  simpa using countEN_middle l₁ l₂ (sid, v) e' n'

theorem countT_aerase_eq (s : TrackerState) {sid : String} {v : ConnectionInfo}
    (hv : alookup sid s.connections = some v) (t' : Transport) :
    countT s.connections t' = countT (aerase sid s.connections) t' +
      (if v.transport = t' then 1 else 0) := by
  obtain ⟨l₁, l₂, hdecomp, herase⟩ := aerase_decomp hv
  rw [herase, hdecomp]
  simpa using countT_middle l₁ l₂ (sid, v) t'

theorem countEN_aerase_other (s : TrackerState) {sid : String} {v : ConnectionInfo}
    (hv : alookup sid s.connections = some v) (e' n' : String)
    (hne : ¬ (v.endpointName = e' ∧ v.namespaceUuid = n')) :
    countEN (aerase sid s.connections) e' n' = countEN s.connections e' n' := by
  have h := countEN_aerase_eq s hv e' n'
  rw [if_neg hne] at h
  omega

theorem inv_remove_auxA (s : TrackerState) (hinv : TrackerInv s) (sid : String)
    (v : ConnectionInfo) (hv : alookup sid s.connections = some v)
    (m : List (String × Int)) (hm : alookup v.endpointName s.endpointCounts = some m)
    (hz : countEN (aerase sid s.connections) v.endpointName v.namespaceUuid = 0)
    (hempty : aerase v.namespaceUuid m = []) (a b : Int)
    (ha : a = (countT (aerase sid s.connections) .SSE : Int))
    (hb : b = (countT (aerase sid s.connections) .StreamableHTTP : Int)) :
    TrackerInv ⟨aerase sid s.connections, aerase v.endpointName s.endpointCounts,
      a, b⟩ := by
  refine ⟨?_, ?_, ?_, ?_, ?_, ?_⟩
  all_goals dsimp only
  · exact nodup_keys_aerase _ hinv.outerNodup
  · intro p hp
    exact hinv.innerNodup p (mem_aerase hp)
  · intro e' m' hm' n' c' hc'
    by_cases hee : e' = v.endpointName
    · rw [hee, alookup_aerase_self hinv.outerNodup] at hm'
      cases hm'
    · rw [alookup_aerase_ne _ hee] at hm'
      have hcnt := hinv.counts e' m' hm' n' c' hc'
      rw [countEN_aerase_other s hv e' n' (fun hpair => hee hpair.1.symm)]
      exact hcnt
  · intro q hq
    obtain ⟨mq, hmq, hsq⟩ := hinv.cover q (mem_aerase hq)
    by_cases hqe : q.2.endpointName = v.endpointName
    · exfalso
      have hmqm : mq = m := by
        rw [hqe, hm] at hmq
        injection hmq with h
        exact h.symm
      by_cases hqn : q.2.namespaceUuid = v.namespaceUuid
      · have hpos := countEN_pos_of_mem hq v.endpointName v.namespaceUuid hqe hqn
        omega
      · rw [hmqm] at hsq
        rw [← alookup_aerase_ne m hqn, hempty] at hsq
        simp [alookup] at hsq
    · exact ⟨mq, by rw [alookup_aerase_ne _ hqe]; exact hmq, hsq⟩
  · exact ha
  · exact hb

theorem inv_remove_auxB (s : TrackerState) (hinv : TrackerInv s) (sid : String)
    (v : ConnectionInfo) (hv : alookup sid s.connections = some v)
    (m : List (String × Int)) (hm : alookup v.endpointName s.endpointCounts = some m)
    (hz : countEN (aerase sid s.connections) v.endpointName v.namespaceUuid = 0)
    (a b : Int)
    (ha : a = (countT (aerase sid s.connections) .SSE : Int))
    (hb : b = (countT (aerase sid s.connections) .StreamableHTTP : Int)) :
    TrackerInv ⟨aerase sid s.connections,
      aset v.endpointName (aerase v.namespaceUuid m) s.endpointCounts, a, b⟩ := by
  have hmnodup : (m.map Prod.fst).Nodup :=
    hinv.innerNodup (v.endpointName, m) (alookup_mem hm)
  refine ⟨?_, ?_, ?_, ?_, ?_, ?_⟩
  all_goals dsimp only
  · exact nodup_keys_aset _ _ hinv.outerNodup
  · intro p hp
    rcases mem_aset hp with hpe | hold
    · rw [hpe]
      exact nodup_keys_aerase _ hmnodup
    · exact hinv.innerNodup p hold
  · intro e' m' hm' n' c' hc'
    by_cases hee : e' = v.endpointName
    · subst hee
      rw [alookup_aset_self] at hm'
      injection hm' with hm'
      rw [← hm'] at hc'
      by_cases hnn : n' = v.namespaceUuid
      · rw [hnn, alookup_aerase_self hmnodup] at hc'
        cases hc'
      · rw [alookup_aerase_ne _ hnn] at hc'
        have hcnt := hinv.counts v.endpointName m hm n' c' hc'
        rw [countEN_aerase_other s hv v.endpointName n' (fun hpair => hnn hpair.2.symm)]
        exact hcnt
    · rw [alookup_aset_ne _ _ hee] at hm'
      have hcnt := hinv.counts e' m' hm' n' c' hc'
      rw [countEN_aerase_other s hv e' n' (fun hpair => hee hpair.1.symm)]
      exact hcnt
  · intro q hq
    obtain ⟨mq, hmq, hsq⟩ := hinv.cover q (mem_aerase hq)
    by_cases hqe : q.2.endpointName = v.endpointName
    · have hmqm : mq = m := by
        rw [hqe, hm] at hmq
        injection hmq with h
        exact h.symm
      refine ⟨aerase v.namespaceUuid m, by rw [hqe]; exact alookup_aset_self _ _ _, ?_⟩
      by_cases hqn : q.2.namespaceUuid = v.namespaceUuid
      · exfalso
        have hpos := countEN_pos_of_mem hq v.endpointName v.namespaceUuid hqe hqn
        omega
      · rw [alookup_aerase_ne _ hqn, ← hmqm]
        exact hsq
    · exact ⟨mq, by rw [alookup_aset_ne _ _ hqe]; exact hmq, hsq⟩
  · exact ha
  · exact hb

theorem inv_remove_auxC (s : TrackerState) (hinv : TrackerInv s) (sid : String)
    (v : ConnectionInfo) (hv : alookup sid s.connections = some v)
    (m : List (String × Int)) (hm : alookup v.endpointName s.endpointCounts = some m)
    (a b : Int)
    (ha : a = (countT (aerase sid s.connections) .SSE : Int))
    (hb : b = (countT (aerase sid s.connections) .StreamableHTTP : Int)) :
    TrackerInv ⟨aerase sid s.connections,
      aset v.endpointName
        (aset v.namespaceUuid
          ((countEN (aerase sid s.connections) v.endpointName v.namespaceUuid : Int)) m)
        s.endpointCounts, a, b⟩ := by
  have hmnodup : (m.map Prod.fst).Nodup :=
    hinv.innerNodup (v.endpointName, m) (alookup_mem hm)
  refine ⟨?_, ?_, ?_, ?_, ?_, ?_⟩
  all_goals dsimp only
  · exact nodup_keys_aset _ _ hinv.outerNodup
  · intro p hp
    rcases mem_aset hp with hpe | hold
    · rw [hpe]
      exact nodup_keys_aset _ _ hmnodup
    · exact hinv.innerNodup p hold
  · intro e' m' hm' n' c' hc'
    by_cases hee : e' = v.endpointName
    · subst hee
      rw [alookup_aset_self] at hm'
      injection hm' with hm'
      rw [← hm'] at hc'
      by_cases hnn : n' = v.namespaceUuid
      · rw [hnn, alookup_aset_self] at hc'
        injection hc' with hc'
        rw [← hc', hnn]
      · rw [alookup_aset_ne _ _ hnn] at hc'
        have hcnt := hinv.counts v.endpointName m hm n' c' hc'
        rw [countEN_aerase_other s hv v.endpointName n' (fun hpair => hnn hpair.2.symm)]
        exact hcnt
    · rw [alookup_aset_ne _ _ hee] at hm'
      have hcnt := hinv.counts e' m' hm' n' c' hc'
      rw [countEN_aerase_other s hv e' n' (fun hpair => hee hpair.1.symm)]
      exact hcnt
  · intro q hq
    obtain ⟨mq, hmq, hsq⟩ := hinv.cover q (mem_aerase hq)
    by_cases hqe : q.2.endpointName = v.endpointName
    · have hmqm : mq = m := by
        rw [hqe, hm] at hmq
        injection hmq with h
        exact h.symm
      refine ⟨aset v.namespaceUuid
        ((countEN (aerase sid s.connections) v.endpointName v.namespaceUuid : Int)) m,
        by rw [hqe]; exact alookup_aset_self _ _ _, ?_⟩
      by_cases hqn : q.2.namespaceUuid = v.namespaceUuid
      · rw [hqn, alookup_aset_self]
        rfl
      · rw [alookup_aset_ne _ _ hqn, ← hmqm]
        exact hsq
    · exact ⟨mq, by rw [alookup_aset_ne _ _ hqe]; exact hmq, hsq⟩
  · exact ha
  · exact hb

theorem inv_remove (s : TrackerState) (hinv : TrackerInv s) (sid : String) :
    TrackerInv (removeConnection s sid) := by
  rcases hv : alookup sid s.connections with _ | v
  · have hs : removeConnection s sid = s := by
      simp [removeConnection, hv]
    rw [hs]
    exact hinv
  · have hvmem : (sid, v) ∈ s.connections := alookup_mem hv
    obtain ⟨m, hm0, hsomeN⟩ := hinv.cover (sid, v) hvmem
    have hm : alookup v.endpointName s.endpointCounts = some m := hm0
    obtain ⟨c, hc0⟩ := Option.isSome_iff_exists.mp hsomeN
    have hc : alookup v.namespaceUuid m = some c := hc0
    have hcval : c = (countEN s.connections v.endpointName v.namespaceUuid : Int) :=
      hinv.counts v.endpointName m hm v.namespaceUuid c hc
    have hself := countEN_aerase_eq s hv v.endpointName v.namespaceUuid
    rw [if_pos ⟨rfl, rfl⟩] at hself
    have hnewCount : max 0 (c - 1) =
        (countEN (aerase sid s.connections) v.endpointName v.namespaceUuid : Int) := by
      rw [hcval, hself]
      push_cast
      omega
    have hTsse := countT_aerase_eq s hv .SSE
    have hTsh := countT_aerase_eq s hv .StreamableHTTP
    rcases ht : v.transport with _ | _
    · rw [ht, if_pos rfl] at hTsse
      rw [ht, if_neg (by simp)] at hTsh
      have ha : max 0 (s.sseCount - 1) =
          (countT (aerase sid s.connections) .SSE : Int) := by
        rw [hinv.sse, hTsse]
        push_cast
        omega
      have hb : s.shttpCount =
          (countT (aerase sid s.connections) .StreamableHTTP : Int) := by
        rw [hinv.shttp, hTsh]
        push_cast
        omega
      have hstate : removeConnection s sid = ⟨aerase sid s.connections,
          (if (if max 0 (c - 1) = 0 then aerase v.namespaceUuid m
               else aset v.namespaceUuid (max 0 (c - 1)) m).length = 0
           then aerase v.endpointName s.endpointCounts
           else aset v.endpointName
             (if max 0 (c - 1) = 0 then aerase v.namespaceUuid m
              else aset v.namespaceUuid (max 0 (c - 1)) m) s.endpointCounts),
          max 0 (s.sseCount - 1), s.shttpCount⟩ := by
        simp only [removeConnection, hv, hm, hc, Option.getD_some, ht]
      rw [hstate]
      by_cases hz : countEN (aerase sid s.connections) v.endpointName v.namespaceUuid = 0
      · have hzero : max 0 (c - 1) = 0 := by
          rw [hnewCount, hz]
          simp
        rw [if_pos hzero]
        by_cases hempty : (aerase v.namespaceUuid m).length = 0
        · rw [if_pos hempty]
          exact inv_remove_auxA s hinv sid v hv m hm hz
            (List.length_eq_zero.mp hempty) _ _ ha hb
        · rw [if_neg hempty]
          exact inv_remove_auxB s hinv sid v hv m hm hz _ _ ha hb
      · have hnzero : ¬ (max 0 (c - 1) = 0) := by
          rw [hnewCount]
          simpa using hz
        rw [if_neg hnzero, hnewCount]
        have hlen : ¬ ((aset v.namespaceUuid
            ((countEN (aerase sid s.connections) v.endpointName v.namespaceUuid : Int))
            m).length = 0) := by
          simpa [List.length_eq_zero] using aset_ne_nil v.namespaceUuid _ m
        rw [if_neg hlen]
        exact inv_remove_auxC s hinv sid v hv m hm _ _ ha hb
    · rw [ht, if_neg (by simp)] at hTsse
      rw [ht, if_pos rfl] at hTsh
      have ha : s.sseCount = (countT (aerase sid s.connections) .SSE : Int) := by
        rw [hinv.sse, hTsse]
        push_cast
        omega
      have hb : max 0 (s.shttpCount - 1) =
          (countT (aerase sid s.connections) .StreamableHTTP : Int) := by
        rw [hinv.shttp, hTsh]
        push_cast
        omega
      have hstate : removeConnection s sid = ⟨aerase sid s.connections,
          (if (if max 0 (c - 1) = 0 then aerase v.namespaceUuid m
               else aset v.namespaceUuid (max 0 (c - 1)) m).length = 0
           then aerase v.endpointName s.endpointCounts
           else aset v.endpointName
             (if max 0 (c - 1) = 0 then aerase v.namespaceUuid m
              else aset v.namespaceUuid (max 0 (c - 1)) m) s.endpointCounts),
          s.sseCount, max 0 (s.shttpCount - 1)⟩ := by
        simp only [removeConnection, hv, hm, hc, Option.getD_some, ht]
      rw [hstate]
      by_cases hz : countEN (aerase sid s.connections) v.endpointName v.namespaceUuid = 0
      · have hzero : max 0 (c - 1) = 0 := by
          rw [hnewCount, hz]
          simp
        rw [if_pos hzero]
        by_cases hempty : (aerase v.namespaceUuid m).length = 0
        · rw [if_pos hempty]
          exact inv_remove_auxA s hinv sid v hv m hm hz
            (List.length_eq_zero.mp hempty) _ _ ha hb
        · rw [if_neg hempty]
          exact inv_remove_auxB s hinv sid v hv m hm hz _ _ ha hb
      · have hnzero : ¬ (max 0 (c - 1) = 0) := by
          rw [hnewCount]
          simpa using hz
        rw [if_neg hnzero, hnewCount]
        have hlen : ¬ ((aset v.namespaceUuid
            ((countEN (aerase sid s.connections) v.endpointName v.namespaceUuid : Int))
            m).length = 0) := by
          simpa [List.length_eq_zero] using aset_ne_nil v.namespaceUuid _ m
        rw [if_neg hlen]
        exact inv_remove_auxC s hinv sid v hv m hm _ _ ha hb

theorem inv_init : TrackerInv TrackerState.init := by
  refine ⟨?_, ?_, ?_, ?_, ?_, ?_⟩
  · simp [TrackerState.init]
  · intro p hp
    simp [TrackerState.init] at hp
  · intro e m hm
    simp [TrackerState.init, alookup] at hm
  · intro q hq
    simp [TrackerState.init] at hq
  · simp [TrackerState.init, countT]
  · simp [TrackerState.init, countT]

theorem inv_runOps (ops : List TrackerOp) : TrackerInv (runOps ops) := by
  suffices h : ∀ (s : TrackerState), TrackerInv s → TrackerInv (ops.foldl applyOp s) by
    exact h TrackerState.init inv_init
  induction ops with
  | nil => exact fun s hs => hs
  | cons op rest ih =>
    intro s hs
    rw [List.foldl_cons]
    refine ih (applyOp s op) ?_
    rcases op with ⟨sid, e, n, t⟩ | sid
    · exact inv_add s hs sid e n t
    · exact inv_remove s hs sid

theorem map_count_flatMap (ec : List (String × List (String × Int)))
    (conns : List (String × ConnectionInfo)) :
    ((ec.flatMap (fun p => p.2.map (fun q =>
        ({ endpointName := p.1, namespaceUuid := q.1, count := q.2,
           sse := (countENT conns p.1 q.1 .SSE : Int),
           shttp := (countENT conns p.1 q.1 .StreamableHTTP : Int) } : EndpointStat)))).map
      (fun b => b.count)) = ec.flatMap (fun p => p.2.map (fun q => q.2)) := by
  induction ec with
  | nil => simp
  | cons p rest ih =>
    simp only [List.flatMap_cons, List.map_append, List.map_map, ih]
    rfl

theorem inv_sum_values (s : TrackerState) (hinv : TrackerInv s) :
    (s.endpointCounts.flatMap (fun p => p.2.map (fun q => q.2))).sum =
      (s.connections.length : Int) := by
  have hvals := values_eq_countEN_list s.endpointCounts s.connections
    (fun e m hm n c hc =>
      hinv.counts e m (alookup_of_mem_nodup hinv.outerNodup hm) n c
        (alookup_of_mem_nodup (hinv.innerNodup (e, m) hm) hc))
  rw [hvals]
  apply sum_countEN_of_cover
  · exact pairsOf_nodup hinv.outerNodup hinv.innerNodup
  · intro q hq
    obtain ⟨m, hm, hsome⟩ := hinv.cover q hq
    obtain ⟨c, hc⟩ := Option.isSome_iff_exists.mp hsome
    exact mem_pairsOf_of_lookup hm hc

/-- C9: for every finite add/remove sequence from a fresh tracker, `getStats`
reports `total = SSE + StreamableHTTP = sum of byEndpoint counts`, no counter is
negative, adding an already-present session changes nothing, and removing an
absent session changes nothing. -/
theorem liveRegistry_stats_invariant (ops : List TrackerOp) :
    ((getStats (runOps ops)).total : Int) =
      (getStats (runOps ops)).sseTotal + (getStats (runOps ops)).shttpTotal ∧
    (getStats (runOps ops)).sseTotal + (getStats (runOps ops)).shttpTotal =
      ((getStats (runOps ops)).byEndpoint.map (fun b => b.count)).sum ∧
    (0 ≤ (getStats (runOps ops)).sseTotal ∧ 0 ≤ (getStats (runOps ops)).shttpTotal ∧
      ∀ b ∈ (getStats (runOps ops)).byEndpoint, 0 ≤ b.count ∧ 0 ≤ b.sse ∧ 0 ≤ b.shttp) ∧
    (∀ sid e n t, (alookup sid (runOps ops).connections).isSome = true →
      addConnection (runOps ops) sid e n t = runOps ops) ∧
    (∀ sid, alookup sid (runOps ops).connections = none →
      removeConnection (runOps ops) sid = runOps ops) := by
  have hinv := inv_runOps ops
  have htotal : ((getStats (runOps ops)).total : Int) =
      (getStats (runOps ops)).sseTotal + (getStats (runOps ops)).shttpTotal := by
    simp only [getStats]
    rw [hinv.sse, hinv.shttp]
    have := countT_partition (runOps ops).connections
    omega
  have hsum : ((getStats (runOps ops)).byEndpoint.map (fun b => b.count)).sum =
      ((runOps ops).connections.length : Int) := by
    simp only [getStats]
    have hperm := (perm_sortBy (fun a b : EndpointStat => decide (b.count ≤ a.count))
      ((runOps ops).endpointCounts.flatMap (fun p => p.2.map (fun q =>
        ({ endpointName := p.1, namespaceUuid := q.1, count := q.2,
           sse := (countENT (runOps ops).connections p.1 q.1 .SSE : Int),
           shttp := (countENT (runOps ops).connections p.1 q.1 .StreamableHTTP : Int) }
          : EndpointStat)))))
    have hperm2 := List.Perm.map (fun b : EndpointStat => b.count) hperm
    rw [hperm2.sum_eq, map_count_flatMap, inv_sum_values (runOps ops) hinv]
  refine ⟨htotal, ?_, ⟨?_, ?_, ?_⟩, ?_, ?_⟩
  · rw [hsum, ← htotal]
    simp [getStats]
  · simp only [getStats]
    rw [hinv.sse]
    exact Int.natCast_nonneg _
  · simp only [getStats]
    rw [hinv.shttp]
    exact Int.natCast_nonneg _
  · intro b hb
    simp only [getStats] at hb
    have hb2 := (perm_sortBy _ _).mem_iff.1 hb
    rw [List.mem_flatMap] at hb2
    obtain ⟨p, hp, hb3⟩ := hb2
    rw [List.mem_map] at hb3
    obtain ⟨q, hq, hb4⟩ := hb3
    have hcnt : q.2 = (countEN (runOps ops).connections p.1 q.1 : Int) :=
      hinv.counts p.1 p.2 (alookup_of_mem_nodup hinv.outerNodup (by
        rw [show (p.1, p.2) = p from rfl]
        exact hp)) q.1 q.2 (alookup_of_mem_nodup (hinv.innerNodup p hp) (by
        rw [show (q.1, q.2) = q from rfl]
        exact hq))
    rw [← hb4]
    refine ⟨?_, ?_, ?_⟩
    · dsimp only
      rw [hcnt]
      exact Int.natCast_nonneg _
    · exact Int.natCast_nonneg _
    · exact Int.natCast_nonneg _
  · intro sid e n t h
    simp [addConnection, h]
  · intro sid h
    simp [removeConnection, h]

/-- Witness for C9: one add; a duplicate add and an absent remove are no-ops. -/
theorem liveRegistry_stats_invariant_witness :
    (alookup "a" (runOps [TrackerOp.add "a" "e" "n" Transport.SSE]).connections).isSome
      = true ∧
    addConnection (runOps [TrackerOp.add "a" "e" "n" Transport.SSE]) "a" "e2" "n2"
      Transport.StreamableHTTP = runOps [TrackerOp.add "a" "e" "n" Transport.SSE] ∧
    alookup "z" (runOps [TrackerOp.add "a" "e" "n" Transport.SSE]).connections = none ∧
    removeConnection (runOps [TrackerOp.add "a" "e" "n" Transport.SSE]) "z" =
      runOps [TrackerOp.add "a" "e" "n" Transport.SSE] := by
  have h := liveRegistry_stats_invariant [TrackerOp.add "a" "e" "n" Transport.SSE]
  exact ⟨by decide, h.2.2.2.1 "a" "e2" "n2" .StreamableHTTP (by decide), by decide,
    h.2.2.2.2 "z" (by decide)⟩
